import Mathlib

/-!
Verification of the gnftools annotation model against its specification.

The development shallowly embeds the Rust sources:
* `gnf/src/feature.rs` — strand resolution, interval construction, the
  sub-feature inference engine `infer_features`, and the transcript builder.
* `genomic_fx/src/io_refflat.rs` — refFlat record decoding
  (`into_transcript`, `zip_raw_exon_coords`), serialization
  (`write_transcript_gid`), and the consecutive-run gene grouping
  (`groupf`, `RefFlatGenes::next`).

Machine integers: all coordinates are Rust `u64`; they are embedded as `Nat`.
Every subtraction performed by the embedded code paths proved about here is
guarded so that it cannot underflow (where the Rust code would panic in a
debug build, no theorem below speaks about the result).  Fallible code is
embedded with `Except`.

The `genomic_fx` model crate (`model.rs`, holding `TBuilder`, `GBuilder`,
`Transcript`, `Gene`) is not part of the available sources; the definitions
standing in for it are marked `Modelled from the spec:` and follow the
specification text (§3, §4.1–§4.3, §4.5).
-/

/-- Strand of `bio::utils` (external dependency), per spec §3: one of
`Forward`, `Reverse`, `Unknown`. -/
inductive Strand where
  | Forward
  | Reverse
  | Unknown
deriving DecidableEq

/-- `Strand::from_char` of the `bio` crate, per spec §3: parsed from
`+`, `-`, `.`; any other character is invalid (`none` here stands for
`StrandError`). -/
def Strand.from_char (c : Char) : Option Strand :=
  if c = '+' then some .Forward
  else if c = '-' then some .Reverse
  else if c = '.' then some .Unknown
  else none

/-- `FeatureError` of `gnf/src/feature.rs` (error module). -/
inductive FeatureError where
  | IntervalError
  | StrandCharError
  | ConflictingStrandError
  | UnspecifiedStrandError
  | SubFeatureIntervalError
  | IncompleteTranscriptError
deriving DecidableEq

/-- `resolve_strand_input` of `gnf/src/feature.rs`. -/
def resolve_strand_input (strand : Option Strand) (strand_char : Option Char) :
    Except FeatureError Strand :=
  match strand, strand_char with
  | none, none => .error .UnspecifiedStrandError
  | some sv, none => .ok sv
  | none, some scv =>
      match Strand.from_char scv with
      | some s => .ok s
      | none => .error .StrandCharError
  | some sv, some scv =>
      match Strand.from_char scv with
      | none => .error .StrandCharError
      | some sv2 => if sv = sv2 then .ok sv else .error .ConflictingStrandError

/-- `coords_to_interval` of `gnf/src/feature.rs`: `Interval::new(start..end)`
fails with `IntervalError` when `start > end`. -/
def coords_to_interval (start stop : Nat) : Except FeatureError (Nat × Nat) :=
  if start ≤ stop then .ok (start, stop) else .error .IntervalError

/-- `TxFeature` of `gnf/src/feature.rs`. -/
inductive TxFeature where
  | Exon
  | UTR
  | UTR5
  | UTR3
  | CDS
  | StartCodon
  | StopCodon
  | Any
deriving DecidableEq

/-- `TranscriptFeature` of `gnf/src/feature.rs`: a kind together with a
sequence name, a half-open interval, a strand and attributes. -/
structure TranscriptFeature where
  kind : TxFeature
  seqName : String
  istart : Nat
  iend : Nat
  strand : Strand
  attributes : List (String × String)
deriving DecidableEq

/-- `span()` of the `Annotation` trait: `interval.end - interval.start`. -/
def fspan (f : TranscriptFeature) : Nat := f.iend - f.istart

/-- The `make_feature` closure inside `infer_features`: empty attributes,
the transcript's sequence name and strand. -/
def mkFeat (sn : String) (st : Strand) (k : TxFeature) (s e : Nat) :
    TranscriptFeature :=
  { kind := k, seqName := sn, istart := s, iend := e, strand := st,
    attributes := [] }

/-- `(utr1, mcodon1)` selection in `infer_features` (the 5'-side kinds). -/
def utr1Of : Strand → TxFeature
  | .Forward => .UTR5
  | .Reverse => .UTR3
  | .Unknown => .UTR

/-- First codon selection in `infer_features`. -/
def mcodon1Of : Strand → Option TxFeature
  | .Forward => some .StartCodon
  | .Reverse => some .StopCodon
  | .Unknown => none

/-- `(utr2, mcodon2)` selection in `infer_features` (the 3'-side kinds). -/
def utr2Of : Strand → TxFeature
  | .Forward => .UTR3
  | .Reverse => .UTR5
  | .Unknown => .UTR

/-- Second codon selection in `infer_features`. -/
def mcodon2Of : Strand → Option TxFeature
  | .Forward => some .StopCodon
  | .Reverse => some .StartCodon
  | .Unknown => none

/-- Loop state of the coding branch of `infer_features`: the features pushed
so far (in push order) and the two codon-remaining counters. -/
structure InferState where
  feats : List TranscriptFeature
  c1 : Nat
  c2 : Nat
deriving DecidableEq

/-- One iteration of the exon loop in the coding branch of `infer_features`
(`feature.rs` lines 241–319), for coding region `[cs, ce)`.  The six branch
conditions and push orders mirror the source; `features.last()` is
`feats.getLast?`. -/
def inferStep (sn : String) (st : Strand) (cs ce : Nat)
    (acc : InferState) (p : Nat × Nat) : InferState :=
  let s := p.1
  let e := p.2
  if e ≤ cs then
    -- whole 5'-side UTR exon block
    { acc with feats := acc.feats ++
        [mkFeat sn st .Exon s e, mkFeat sn st (utr1Of st) s e] }
  else if s < cs then
    -- UTR-CDS exon block
    match mcodon1Of st with
    | some k1 =>
        let codon := mkFeat sn st k1 cs (min (cs + 3) e)
        { acc with
          feats := acc.feats ++
            [mkFeat sn st .Exon s e, mkFeat sn st (utr1Of st) s cs, codon,
             mkFeat sn st .CDS cs e],
          c1 := acc.c1 - fspan codon }
    | none =>
        { acc with feats := acc.feats ++
            [mkFeat sn st .Exon s e, mkFeat sn st (utr1Of st) s cs,
             mkFeat sn st .CDS cs e] }
  else if e < ce then
    -- whole CDS exon block
    if acc.c1 > 0 then
      match mcodon1Of st with
      | some k1 =>
          let codon := mkFeat sn st k1 s (min (s + acc.c1) e)
          { acc with
            feats := acc.feats ++
              [mkFeat sn st .Exon s e, codon, mkFeat sn st .CDS s e],
            c1 := acc.c1 - fspan codon }
      | none =>
          { acc with feats := acc.feats ++
              [mkFeat sn st .Exon s e, mkFeat sn st .CDS s e] }
    else
      { acc with feats := acc.feats ++
          [mkFeat sn st .Exon s e, mkFeat sn st .CDS s e] }
  else if e = ce then
    -- whole CDS exon block ending exactly at the coding end
    if e - s ≥ acc.c2 then
      match mcodon2Of st with
      | some k2 =>
          let codon := mkFeat sn st k2 (max s (ce - acc.c2)) e
          { acc with
            feats := acc.feats ++
              [mkFeat sn st .Exon s e, mkFeat sn st .CDS s e, codon],
            c2 := acc.c2 - fspan codon }
      | none =>
          { acc with feats := acc.feats ++
              [mkFeat sn st .Exon s e, mkFeat sn st .CDS s e] }
    else
      { acc with feats := acc.feats ++
          [mkFeat sn st .Exon s e, mkFeat sn st .CDS s e] }
  else if s < ce then
    -- CDS-UTR exon block, possibly completing a codon retroactively
    let fix :=
      if ce - s < acc.c2 then
        let prevEnd :=
          match acc.feats.getLast? with
          | some fx => fx.iend
          | none => 0
        if prevEnd > 0 then
          match mcodon2Of st with
          | some k2 =>
              let codon := mkFeat sn st k2 (prevEnd - (acc.c2 - (ce - s))) prevEnd
              ([codon], acc.c2 - fspan codon)
          | none => ([], acc.c2)
        else ([], acc.c2)
      else ([], acc.c2)
    match mcodon2Of st with
    | some k2 =>
        let codon := mkFeat sn st k2 (max s (ce - fix.2)) ce
        { feats := acc.feats ++ fix.1 ++
            [mkFeat sn st .Exon s e, mkFeat sn st .CDS s ce, codon,
             mkFeat sn st (utr2Of st) ce e],
          c1 := acc.c1,
          c2 := fix.2 - fspan codon }
    | none =>
        { feats := acc.feats ++ fix.1 ++
            [mkFeat sn st .Exon s e, mkFeat sn st .CDS s ce,
             mkFeat sn st (utr2Of st) ce e],
          c1 := acc.c1,
          c2 := fix.2 }
  else
    -- whole 3'-side UTR exon block
    { acc with feats := acc.feats ++
        [mkFeat sn st .Exon s e, mkFeat sn st (utr2Of st) s e] }

/-- The per-pair validation loop of `infer_features` (lines 190–196): any
pair with `start >= end` is `SubFeatureIntervalError`; otherwise the list is
copied through. -/
def validateExonCoords : List (Nat × Nat) → Except FeatureError (List (Nat × Nat))
  | [] => .ok []
  | (a, b) :: rest =>
      if a ≥ b then .error .SubFeatureIntervalError
      else
        match validateExonCoords rest with
        | .error e => .error e
        | .ok r => .ok ((a, b) :: r)

/-- `exon_r.0` — the first validated exon's start (`first().unwrap().0`). -/
def exonR0 (l : List (Nat × Nat)) : Nat := ((l.head?).map Prod.fst).getD 0

/-- `exon_r.1` — the last validated exon's end (`last().unwrap().1`). -/
def exonR1 (l : List (Nat × Nat)) : Nat := ((l.getLast?).map Prod.snd).getD 0

/-- The exon-only loop of `infer_features` (lines 326–340), including the
(here unreachable) `start > end` re-check of the source. -/
def exonFeatures (sn : String) (st : Strand) :
    List (Nat × Nat) → Except FeatureError (List TranscriptFeature)
  | [] => .ok []
  | (s, e) :: rest =>
      if s > e then .error .SubFeatureIntervalError
      else
        match exonFeatures sn st rest with
        | .error err => .error err
        | .ok r => .ok (mkFeat sn st .Exon s e :: r)

/-- `infer_features` of `gnf/src/feature.rs` (lines 177–343). -/
def infer_features (sn : String) (tStart tEnd : Nat) (st : Strand)
    (exon_coords : List (Nat × Nat)) (cds_span : Option (Nat × Nat)) :
    Except FeatureError (List TranscriptFeature) :=
  if exon_coords.isEmpty then .error .IncompleteTranscriptError
  else
    match validateExonCoords exon_coords with
    | .error e => .error e
    | .ok m =>
        if exonR0 m ≠ tStart ∨ exonR1 m ≠ tEnd then
          .error .SubFeatureIntervalError
        else
          match cds_span with
          | some (c0, c1) =>
              if c0 > c1 then .error .SubFeatureIntervalError
              else if c0 < c1 then
                if c0 < exonR0 m ∨ c1 > exonR1 m then
                  .error .SubFeatureIntervalError
                else
                  .ok (List.foldl (inferStep sn st c0 c1)
                        { feats := [], c1 := 3, c2 := 3 } m).feats
              else exonFeatures sn st m
          | none => exonFeatures sn st m

/-- The coordinates of all sub-features of a given kind, in emission order. -/
def kindCoords (k : TxFeature) (fxs : List TranscriptFeature) : List (Nat × Nat) :=
  (fxs.filter (fun f => f.kind == k)).map (fun f => (f.istart, f.iend))

/-- Whether a kind is one of the UTR kinds (`UTR`, `UTR5`, `UTR3`). -/
def isUtrKind : TxFeature → Bool
  | .UTR | .UTR5 | .UTR3 => true
  | _ => false

/-- The coordinates of all UTR-kind sub-features, in emission order. -/
def utrCoords (fxs : List TranscriptFeature) : List (Nat × Nat) :=
  (fxs.filter (fun f => isUtrKind f.kind)).map (fun f => (f.istart, f.iend))

/-- Total number of bases covered by a list of half-open intervals. -/
def sumSpans (l : List (Nat × Nat)) : Nat := l.foldr (fun p a => (p.2 - p.1) + a) 0

/-- `glues l a b`: the intervals of `l` concatenate exactly to the half-open
interval `[a, b)` — each interval starts where the previous one ended, the
first starts at `a` and the last ends at `b` (an empty list glues `[a, a)`). -/
def glues : List (Nat × Nat) → Nat → Nat → Prop
  | [], a, b => a = b
  | (s, e) :: rest, a, b => a = s ∧ glues rest e b

instance instDecidableGlues :
    (l : List (Nat × Nat)) → (a b : Nat) → Decidable (glues l a b)
  | [], a, b => if h : a = b then .isTrue h else .isFalse h
  | (_, e) :: rest, a, b =>
      match instDecidableGlues rest e b with
      | .isTrue h2 =>
          if h1 : a = _ then .isTrue ⟨h1, h2⟩ else .isFalse (fun hc => h1 hc.1)
      | .isFalse h2 => .isFalse (fun hc => h2 hc.2)

/-- `tiled l`: consecutive exon pairs are adjacent (each exon ends where the
next one starts), so the exon set union is a single contiguous interval. -/
def tiled : List (Nat × Nat) → Prop
  | p :: q :: rest => p.2 = q.1 ∧ tiled (q :: rest)
  | _ => True

instance instDecidableTiled : (l : List (Nat × Nat)) → Decidable (tiled l)
  | [] => .isTrue trivial
  | [_] => .isTrue trivial
  | p :: q :: rest =>
      match instDecidableTiled (q :: rest) with
      | .isTrue h =>
          if h1 : p.2 = q.1 then .isTrue ⟨h1, h⟩ else .isFalse (fun hc => h1 hc.1)
      | .isFalse h => .isFalse (fun hc => h hc.2)

/-- `Transcript` of `gnf/src/feature.rs`. -/
structure Transcript where
  seqName : String
  istart : Nat
  iend : Nat
  strand : Strand
  attributes : List (String × String)
  features : List TranscriptFeature
deriving DecidableEq

/-- `TranscriptBuilder` of `gnf/src/feature.rs` as a plain configuration value
(the fluent setters only fill these fields).  `stop` stands for the source
field named `end`. -/
structure TranscriptBuilder where
  seq_name : String
  start : Nat
  stop : Nat
  strand : Option Strand
  strand_char : Option Char
  features : Option (List TranscriptFeature)
  exon_coords : Option (List (Nat × Nat))
  cds_coord : Option (Nat × Nat)
  attributes : List (String × String)
deriving DecidableEq

/-- `resolve_transcript_features` of `gnf/src/feature.rs` (lines 145–175). -/
def resolve_transcript_features (sn : String) (ti : Nat × Nat) (st : Strand)
    (features : Option (List TranscriptFeature))
    (exon_coords : Option (List (Nat × Nat)))
    (cds_coord : Option (Nat × Nat)) :
    Except FeatureError (List TranscriptFeature) :=
  match features, exon_coords, cds_coord with
  | none, none, none => .ok []
  | none, none, some _ => .error .IncompleteTranscriptError
  | some fxs, _, _ => .ok fxs
  | none, some raw, cdsc => infer_features sn ti.1 ti.2 st raw cdsc

/-- `TranscriptBuilder::build` of `gnf/src/feature.rs` (lines 672–684). -/
def TranscriptBuilder.build (b : TranscriptBuilder) : Except FeatureError Transcript :=
  match coords_to_interval b.start b.stop with
  | .error e => .error e
  | .ok iv =>
      match resolve_strand_input b.strand b.strand_char with
      | .error e => .error e
      | .ok st =>
          match resolve_transcript_features b.seq_name iv st b.features
              b.exon_coords b.cds_coord with
          | .error e => .error e
          | .ok fxs =>
              .ok { seqName := b.seq_name, istart := iv.1, iend := iv.2,
                    strand := st, attributes := b.attributes, features := fxs }

/-- One decimal digit character. -/
def digitChar : Nat → Char
  | 0 => '0'
  | 1 => '1'
  | 2 => '2'
  | 3 => '3'
  | 4 => '4'
  | 5 => '5'
  | 6 => '6'
  | 7 => '7'
  | 8 => '8'
  | _ => '9'

/-- Little-endian decimal digits of `n`, with explicit fuel (`fuel ≥ n`
suffices, since `n / 10 < n` for positive `n`). -/
def natDigitsRev : Nat → Nat → List Nat
  | 0, _ => []
  | f + 1, n => if n = 0 then [] else n % 10 :: natDigitsRev f (n / 10)

/-- Canonical decimal rendering of a `u64` (Rust's `Display`). -/
def natStr (n : Nat) : String :=
  if n = 0 then "0" else String.mk (((natDigitsRev n n).reverse).map digitChar)

/-- Value of a little-endian digit list. -/
def evalDigitsLE : List Nat → Nat
  | [] => 0
  | d :: rest => d + 10 * evalDigitsLE rest

/-- `u64::from_str`: a non-empty all-digit string parses to its decimal
value.  (Rust additionally accepts a leading `+` sign and rejects values
above `u64::MAX`; no claim below exercises either.) -/
def parseNat (s : String) : Option Nat :=
  if s.data = [] then none
  else if s.data.all (fun c => c.isDigit) then
    some (s.data.foldl (fun acc c => acc * 10 + (c.toNat - 48)) 0)
  else none

/-- Error type of the `genomic_fx` crate root, restricted to the variants the
refFlat layer produces: builder failures (`Error::Feature`), refFlat decode
failures (`Error::RefFlat`), integer parse failures (`Error::from` on
`ParseIntError`) and csv-level decode failures. -/
inductive Error where
  | feature (e : FeatureError)
  | refFlat (msg : String)
  | parseInt
  | csv (msg : String)
deriving DecidableEq

/-- `RefFlatRecord` of `genomic_fx/src/io_refflat.rs`.  The raw `exon_starts`
and `exon_ends` columns hold comma-separated values with a trailing comma;
they are carried here as the token lists obtained by the source's
`trim_matches(',')` + `split(',')`. -/
structure RefFlatRecord where
  gene_id : String
  transcript_name : String
  seq_name : String
  strand : Char
  trx_start : Nat
  trx_end : Nat
  coding_start : Nat
  coding_end : Nat
  num_exons : Nat
  exon_starts : List String
  exon_ends : List String
deriving DecidableEq

/-- Parse one exon coordinate token (`u64::from_str`). -/
def parseU64 (s : String) : Except Error Nat :=
  match parseNat s with
  | some n => .ok n
  | none => .error .parseInt

/-- `RefFlatRecord::zip_raw_exon_coords`: the two token streams are zipped
(stopping at the shorter one, like Rust's `zip`) and each token is parsed;
the first parse failure within the zipped prefix is returned. -/
def zip_raw_exon_coords : List String → List String → Except Error (List (Nat × Nat))
  | s :: ss, e :: es =>
      match parseU64 s with
      | .error err => .error err
      | .ok a =>
          match parseU64 e with
          | .error err => .error err
          | .ok b =>
              match zip_raw_exon_coords ss es with
              | .error err => .error err
              | .ok rest => .ok ((a, b) :: rest)
  | _, _ => .ok []

/-- `u64::max_value()`. -/
def U64MAX : Nat := 18446744073709551615

/-- Fold-style minimum of the exon start coordinates (`u64::MAX` sentinel,
per the source idiom noted in spec §9). -/
def minStarts (l : List (Nat × Nat)) : Nat := l.foldl (fun m p => min m p.1) U64MAX

/-- Fold-style maximum of the exon end coordinates (`u64::MIN` sentinel). -/
def maxEnds (l : List (Nat × Nat)) : Nat := l.foldl (fun m p => max m p.2) 0

/-- Modelled from the spec: the `genomic_fx` `Transcript` entity
(`model.rs` is not under `src/`).  Per spec §3 a transcript carries sequence
name, interval, strand, attribute mapping and its sub-features; for the
refFlat write path (§4.5) the exon sub-feature coordinates and the coding
span (stored inclusive of the stop codon, as built with
`coding_incl_stop(true)`) are what matter, so they are carried directly. -/
structure GTranscript where
  seqName : String
  tstart : Nat
  tend : Nat
  strand : Strand
  id : Option String
  attributes : List (String × String)
  exons : List (Nat × Nat)
  coding : Option (Nat × Nat)
deriving DecidableEq

/-- Modelled from the spec: `Transcript::coding_coord(incl_stop)` used by the
writer (§4.5 "coding start/end equal to the transcript's coding span if one
exists"); the stored span already includes the stop codon. -/
def coding_coord (t : GTranscript) (_incl_stop : Bool) : Option (Nat × Nat) :=
  t.coding

/-- Modelled from the spec: `TBuilder::build` of the missing `genomic_fx`
`model.rs`.  Per §4.3 the build resolves the interval, then the sub-features
per the §4.2 contract: empty exon list → `IncompleteTranscriptError`; a pair
with `start >= end` → `SubFeatureIntervalError`; the exon union span (min of
starts, max of ends) must equal the declared interval; a coding pair with
`start > end` → `SubFeatureIntervalError`; one with `start == end` is
treated as no coding region; a proper one must be enveloped by the union. -/
def tbuild (sn : String) (tstart tend : Nat) (tid : Option String) (st : Strand)
    (exons : List (Nat × Nat)) (coding : Option (Nat × Nat))
    (attrs : List (String × String)) : Except Error GTranscript :=
  if tstart > tend then .error (.feature .IntervalError)
  else if exons.isEmpty then .error (.feature .IncompleteTranscriptError)
  else if exons.any (fun p => p.1 ≥ p.2) then .error (.feature .SubFeatureIntervalError)
  else if minStarts exons ≠ tstart ∨ maxEnds exons ≠ tend then
    .error (.feature .SubFeatureIntervalError)
  else
    match coding with
    | none =>
        .ok { seqName := sn, tstart := tstart, tend := tend, strand := st,
              id := tid, attributes := attrs, exons := exons, coding := none }
    | some (cs, ce) =>
        if cs > ce then .error (.feature .SubFeatureIntervalError)
        else if cs = ce then
          .ok { seqName := sn, tstart := tstart, tend := tend, strand := st,
                id := tid, attributes := attrs, exons := exons, coding := none }
        else if cs < minStarts exons ∨ ce > maxEnds exons then
          .error (.feature .SubFeatureIntervalError)
        else
          .ok { seqName := sn, tstart := tstart, tend := tend, strand := st,
                id := tid, attributes := attrs, exons := exons,
                coding := some (cs, ce) }

/-- `RefFlatRecord::into_transcript` of `genomic_fx/src/io_refflat.rs`
(lines 44–71): zip the raw exon coordinates, check the count against
`num_exons`, parse the strand character, turn a degenerate coding pair into
"no coding region", and hand everything to the transcript builder. -/
def into_transcript (r : RefFlatRecord) : Except Error GTranscript :=
  match zip_raw_exon_coords r.exon_starts r.exon_ends with
  | .error e => .error e
  | .ok exon_coords =>
      if exon_coords.length ≠ r.num_exons then
        .error (.refFlat "number of exon and exon coordinates mismatch")
      else
        match Strand.from_char r.strand with
        | none => .error (.feature .StrandCharError)
        | some strand =>
            let codingCoord :=
              if r.coding_start ≠ r.coding_end then
                some (r.coding_start, r.coding_end)
              else none
            tbuild r.seq_name r.trx_start r.trx_end (some r.transcript_name)
              strand exon_coords codingCoord [("gene_id", r.gene_id)]

/-- Strand back to its character, as in `write_transcript_gid`. -/
def strandToChar : Strand → Char
  | .Forward => '+'
  | .Reverse => '-'
  | .Unknown => '.'

/-- `Writer::coords_field`: comma-joined exon starts/ends, each with a
trailing comma. -/
def coords_field (t : GTranscript) : String × String :=
  ((String.intercalate "," (t.exons.map (fun p => natStr p.1))) ++ ",",
   (String.intercalate "," (t.exons.map (fun p => natStr p.2))) ++ ",")

/-- `Writer::write_transcript_gid` of `genomic_fx/src/io_refflat.rs`
(lines 257–291), producing the encoded tab-separated row (the csv encoder
with `QuoteStyle::Never` writes the fields verbatim, tab-joined). -/
def write_transcript_gid (t : GTranscript) (gid : Option String) : String :=
  let gene_id :=
    match gid with
    | some g => g
    | none => (t.attributes.lookup "gene_id").getD ""
  let transcript_name := t.id.getD ""
  let strand_char := strandToChar t.strand
  let codingPair := (coding_coord t true).getD (t.tend, t.tend)
  let fields := coords_field t
  String.intercalate "\t"
    [gene_id, transcript_name, t.seqName, String.singleton strand_char,
     natStr t.tstart, natStr t.tend, natStr codingPair.1, natStr codingPair.2,
     natStr t.exons.length, fields.1, fields.2]

/-- The canonical encoded line of a raw refFlat row (tab-separated fields,
comma-joined exon lists with trailing comma). -/
def encodeRecord (r : RefFlatRecord) : String :=
  String.intercalate "\t"
    [r.gene_id, r.transcript_name, r.seq_name, String.singleton r.strand,
     natStr r.trx_start, natStr r.trx_end, natStr r.coding_start,
     natStr r.coding_end, natStr r.num_exons,
     (String.intercalate "," r.exon_starts) ++ ",",
     (String.intercalate "," r.exon_ends) ++ ","]

/-- A well-formed raw row: the exon columns are the canonical renderings of a
non-empty valid coordinate list, the count field matches, the strand
character is valid, the union span matches the declared interval, and the
coding pair is either the canonical "no coding region" sentinel (both equal
to the transcript end) or a proper enveloped span. -/
def wellFormedRow (r : RefFlatRecord) : Prop :=
  ∃ coords : List (Nat × Nat),
    coords ≠ [] ∧
    r.exon_starts = coords.map (fun p => natStr p.1) ∧
    r.exon_ends = coords.map (fun p => natStr p.2) ∧
    r.num_exons = coords.length ∧
    (∀ p ∈ coords, p.1 < p.2) ∧
    minStarts coords = r.trx_start ∧
    maxEnds coords = r.trx_end ∧
    (r.strand = '+' ∨ r.strand = '-' ∨ r.strand = '.') ∧
    ((r.coding_start = r.trx_end ∧ r.coding_end = r.trx_end) ∨
     (r.coding_start < r.coding_end ∧ r.trx_start ≤ r.coding_start ∧
      r.coding_end ≤ r.trx_end))

/-- Modelled from the spec: the `genomic_fx` `Gene` entity (`model.rs` is not
under `src/`): sequence name, interval, strand, id, and an order-preserving
transcript mapping (spec §3). -/
structure Gene where
  seqName : String
  gstart : Nat
  gend : Nat
  strand : Strand
  id : Option String
  transcripts : List (String × GTranscript)
deriving DecidableEq

/-- Modelled from the spec: `GBuilder::build` of the missing `genomic_fx`
`model.rs`, as invoked by the gene stream: validate the interval (§4.1),
parse the strand character (§4.1), and assemble the gene with the
accumulated ordered transcript mapping (§4.3; the further gene-level
invariants are an open question per spec §9 and are not modelled). -/
def gbuild (sn : String) (gstart gend : Nat) (gid : String) (strand_char : Char)
    (trxs : List (String × GTranscript)) : Except Error Gene :=
  if gstart > gend then .error (.feature .IntervalError)
  else
    match Strand.from_char strand_char with
    | none => .error (.feature .StrandCharError)
    | some st =>
        .ok { seqName := sn, gstart := gstart, gend := gend, strand := st,
              id := some gid, transcripts := trxs }

/-- `LinkedHashMap::insert`: an existing key keeps its position and gets the
new value; a new key is appended. -/
def lhmInsert (m : List (String × GTranscript)) (k : String) (v : GTranscript) :
    List (String × GTranscript) :=
  if m.any (fun p => p.1 = k) then m.map (fun p => if p.1 = k then (k, v) else p)
  else m ++ [(k, v)]

/-- The accumulation loop of `RefFlatGenes::next` over one record run:
convert each record (`record.and_then(into_transcript)?`), fold the gene
bounds from the `u64::MAX`/`u64::MIN` sentinels, and insert each transcript
under its id. -/
def buildGeneRunAux : List (Except Error RefFlatRecord) →
    List (String × GTranscript) → Nat → Nat →
    Except Error (List (String × GTranscript) × Nat × Nat)
  | [], trxs, gs, ge => .ok (trxs, gs, ge)
  | item :: rest, trxs, gs, ge =>
      match (match item with | .ok r => into_transcript r | .error e => .error e) with
      | .error e => .error e
      | .ok t =>
          match t.id with
          | none => .error (.refFlat "transcript does not have ID")
          | some tid =>
              buildGeneRunAux rest (lhmInsert trxs tid t)
                (min gs t.tstart) (max ge t.tend)

/-- `groupf` of `genomic_fx/src/io_refflat.rs` (lines 306–309): the grouping
key of a record result — `None` for decode errors. -/
def groupf (result : Except Error RefFlatRecord) : Option (String × String × Char) :=
  match result with
  | .ok res => some (res.gene_id, res.seq_name, res.strand)
  | .error _ => none

/-- Itertools' `group_by`: split a list into maximal consecutive runs of
elements sharing a key. -/
def consecRuns {α κ : Type} (key : α → κ) [DecidableEq κ] (l : List α) :
    List (List α) :=
  l.foldr
    (fun x acc =>
      match acc with
      | (y :: ys) :: rest =>
          if key x = key y then (x :: y :: ys) :: rest
          else [x] :: (y :: ys) :: rest
      | _ => [[x]])   -- the accumulator never holds an empty run
    []

/-- The first decode error of a run
(`records.filter_map(|x| x.err()).next().unwrap()`); the fallback value is
unreachable for runs whose key is `None`. -/
def firstErrD (run : List (Except Error RefFlatRecord)) : Error :=
  match run.filterMap (fun x => match x with | .error e => some e | .ok _ => none) with
  | e :: _ => e
  | [] => .refFlat "no error in group"

/-- The per-group body of `RefFlatGenes::next` (lines 187–213): a keyed run
is folded into a gene via the gene builder; a key-less run (all decode
errors) yields its first error. -/
def processRun (run : List (Except Error RefFlatRecord)) : Except Error Gene :=
  match run.head? with
  | none => .error (.refFlat "empty group")   -- unreachable for consecRuns output
  | some x =>
      match groupf x with
      | some key =>
          match buildGeneRunAux run [] U64MAX 0 with
          | .error e => .error e
          | .ok (trxs, gs, ge) => gbuild key.2.1 gs ge key.1 key.2.2 trxs
      | none => .error (firstErrD run)

/-- The gene stream over a decoded record sequence: group into maximal
consecutive runs by `groupf` and process each run. -/
def genesStream (input : List (Except Error RefFlatRecord)) :
    List (Except Error Gene) :=
  (consecRuns groupf input).map processRun

/-- The spec's example row (`DDX11L1`, no coding region). -/
def ddxRow : RefFlatRecord :=
  { gene_id := "DDX11L1", transcript_name := "NR_046018", seq_name := "chr1",
    strand := '+', trx_start := 11873, trx_end := 14409,
    coding_start := 14409, coding_end := 14409, num_exons := 3,
    exon_starts := ["11873", "12612", "13220"],
    exon_ends := ["12227", "12721", "14409"] }

/-- First `SMIM12` row of the source's grouping tests. -/
def smim1 : RefFlatRecord :=
  { gene_id := "SMIM12", transcript_name := "NM_001164824", seq_name := "chr1",
    strand := '-', trx_start := 34850361, trx_end := 34859045,
    coding_start := 34855698, coding_end := 34855977, num_exons := 3,
    exon_starts := ["34850361", "34856555", "34858839"],
    exon_ends := ["34855982", "34856739", "34859045"] }

/-- Second `SMIM12` row of the source's grouping tests. -/
def smim2 : RefFlatRecord :=
  { gene_id := "SMIM12", transcript_name := "NM_001164825", seq_name := "chr1",
    strand := '-', trx_start := 34850361, trx_end := 34859737,
    coding_start := 34855698, coding_end := 34855977, num_exons := 2,
    exon_starts := ["34850361", "34859454"],
    exon_ends := ["34855982", "34859737"] }

/-- Third `SMIM12` row of the source's grouping tests. -/
def smim3 : RefFlatRecord :=
  { gene_id := "SMIM12", transcript_name := "NM_138428", seq_name := "chr1",
    strand := '-', trx_start := 34850361, trx_end := 34859816,
    coding_start := 34855698, coding_end := 34855977, num_exons := 2,
    exon_starts := ["34850361", "34859676"],
    exon_ends := ["34855982", "34859816"] }

/-- A valid row for a different gene id on the same sequence and strand. -/
def otherRow : RefFlatRecord :=
  { gene_id := "OTHER1", transcript_name := "NM_000001", seq_name := "chr1",
    strand := '-', trx_start := 100, trx_end := 900,
    coding_start := 900, coding_end := 900, num_exons := 1,
    exon_starts := ["100"], exon_ends := ["900"] }

/-- A row whose exon-starts column has three values but whose exon-ends
column has two, with `num_exons = 2`: Rust's `zip` truncates to two pairs. -/
def truncRow : RefFlatRecord :=
  { gene_id := "G", transcript_name := "T", seq_name := "chr1", strand := '+',
    trx_start := 1, trx_end := 20, coding_start := 20, coding_end := 20,
    num_exons := 2, exon_starts := ["1", "2", "3"], exon_ends := ["10", "20"] }

/-- A row with matching all-numeric exon columns whose single exon pair is
inverted, so the builder rejects it. -/
def invertedExonRow : RefFlatRecord :=
  { gene_id := "G", transcript_name := "T", seq_name := "chr1", strand := '+',
    trx_start := 10, trx_end := 30, coding_start := 30, coding_end := 30,
    num_exons := 1, exon_starts := ["20"], exon_ends := ["10"] }

/-- A row with three exon-start values, two exon-end values and
`num_exons = 3` (differing from the zipped pair count of two). -/
def mismatchRow : RefFlatRecord :=
  { gene_id := "G", transcript_name := "T", seq_name := "chr1", strand := '+',
    trx_start := 1, trx_end := 20, coding_start := 20, coding_end := 20,
    num_exons := 3, exon_starts := ["1", "2", "3"], exon_ends := ["10", "20"] }

/-- A builder configuration with an explicitly supplied empty exon list and
no coding coordinate. -/
def emptyExonBuilder : TranscriptBuilder :=
  { seq_name := "chrT", start := 100, stop := 1000, strand := some .Forward,
    strand_char := none, features := none, exon_coords := some [],
    cds_coord := none, attributes := [] }

/-- Two features per exon pair, in order: the closed form of the loop blocks
emitted for the all-UTR and all-CDS exon regions. -/
def pairBlocks (f g : Nat × Nat → TranscriptFeature) :
    List (Nat × Nat) → List TranscriptFeature
  | [] => []
  | p :: rest => f p :: g p :: pairBlocks f g rest

instance {ε α : Type} [DecidableEq ε] [DecidableEq α] : DecidableEq (Except ε α) :=
  fun a b =>
    match a, b with
    | .ok x, .ok y =>
        match decEq x y with
        | .isTrue h => .isTrue (by rw [h])
        | .isFalse h => .isFalse (by intro hc; cases hc; exact h rfl)
    | .error x, .error y =>
        match decEq x y with
        | .isTrue h => .isTrue (by rw [h])
        | .isFalse h => .isFalse (by intro hc; cases hc; exact h rfl)
    | .ok _, .error _ => .isFalse (by intro hc; cases hc)
    | .error _, .ok _ => .isFalse (by intro hc; cases hc)

theorem validateExonCoords_ok (xs : List (Nat × Nat)) (h : ∀ p ∈ xs, p.1 < p.2) :
    validateExonCoords xs = .ok xs := by
  induction xs with
  | nil => rfl
  | cons p rest ih =>
      obtain ⟨a, b⟩ := p
      have hab : a < b := h (a, b) (by simp)
      have hrest : ∀ q ∈ rest, q.1 < q.2 := fun q hq => h q (by simp [hq])
      simp [validateExonCoords, Nat.not_le.mpr hab, ih hrest]

theorem validateExonCoords_error (xs : List (Nat × Nat)) (e : FeatureError)
    (h : validateExonCoords xs = .error e) : e = .SubFeatureIntervalError := by
  induction xs with
  | nil => simp [validateExonCoords] at h
  | cons p rest ih =>
      obtain ⟨a, b⟩ := p
      by_cases hab : a ≥ b
      · simp [validateExonCoords, hab] at h
        exact h.symm
      · simp [validateExonCoords, hab] at h
        match hval : validateExonCoords rest with
        | .error e2 => rw [hval] at h; cases h; exact ih hval
        | .ok r => rw [hval] at h; cases h

theorem exonFeatures_ok (sn : String) (st : Strand) (xs : List (Nat × Nat))
    (h : ∀ p ∈ xs, p.1 < p.2) :
    exonFeatures sn st xs = .ok (xs.map fun p => mkFeat sn st .Exon p.1 p.2) := by
  induction xs with
  | nil => rfl
  | cons p rest ih =>
      obtain ⟨a, b⟩ := p
      have hab : a < b := h (a, b) (by simp)
      have hrest : ∀ q ∈ rest, q.1 < q.2 := fun q hq => h q (by simp [hq])
      simp [exonFeatures, Nat.not_lt.mpr (Nat.le_of_lt hab), ih hrest]

theorem exonFeatures_error (sn : String) (st : Strand) (xs : List (Nat × Nat))
    (e : FeatureError) (h : exonFeatures sn st xs = .error e) :
    e = .SubFeatureIntervalError := by
  induction xs with
  | nil => simp [exonFeatures] at h
  | cons p rest ih =>
      obtain ⟨a, b⟩ := p
      by_cases hab : a > b
      · simp [exonFeatures, hab] at h
        exact h.symm
      · simp [exonFeatures, hab] at h
        match hval : exonFeatures sn st rest with
        | .error e2 => rw [hval] at h; cases h; exact ih hval
        | .ok r => rw [hval] at h; cases h

theorem infer_features_cons_ne_incomplete (sn : String) (a b : Nat) (st : Strand)
    (p : Nat × Nat) (l : List (Nat × Nat)) (c : Option (Nat × Nat)) :
    infer_features sn a b st (p :: l) c ≠ .error .IncompleteTranscriptError := by
  intro hcontra
  simp only [infer_features, List.isEmpty_cons, Bool.false_eq_true, if_false] at hcontra
  match hval : validateExonCoords (p :: l) with
  | .error e =>
      rw [hval] at hcontra
      cases hcontra
      have := validateExonCoords_error _ _ hval
      simp at this
  | .ok m =>
      rw [hval] at hcontra
      by_cases hu : exonR0 m ≠ a ∨ exonR1 m ≠ b
      · simp [hu] at hcontra
      · simp only [hu, if_false] at hcontra
        match c with
        | none =>
            have := exonFeatures_error sn st m _ hcontra
            simp at this
        | some (c0, c1) =>
            simp only at hcontra
            by_cases h01 : c0 > c1
            · simp [h01] at hcontra
            · simp only [h01, if_false] at hcontra
              by_cases h02 : c0 < c1
              · simp only [h02, if_true] at hcontra
                by_cases henv : c0 < exonR0 m ∨ c1 > exonR1 m
                · simp [henv] at hcontra
                · simp [henv] at hcontra
              · simp only [h02, if_false] at hcontra
                have := exonFeatures_error sn st m _ hcontra
                simp at this

/-- C2: `infer_features` on exons `[(100,300),(400,500),(700,1000)]`, forward
strand, coding `(299,900)` yields the kind sequence `Exon, UTR5, StartCodon,
CDS, Exon, StartCodon, CDS, Exon, CDS, StopCodon, UTR3` with `StartCodon`
intervals `(299,300)` and `(400,402)`; with coding `(200,701)` it yields
`StopCodon` intervals `(498,500)`, `(700,701)` and `UTR3` interval
`(701,1000)`. -/
theorem c2_codon_split_examples :
    (infer_features "chrT" 100 1000 .Forward [(100, 300), (400, 500), (700, 1000)]
        (some (299, 900))).map
        (fun out => (out.map (fun f => f.kind), kindCoords .StartCodon out)) =
      .ok ([.Exon, .UTR5, .StartCodon, .CDS, .Exon, .StartCodon, .CDS, .Exon,
            .CDS, .StopCodon, .UTR3],
           [(299, 300), (400, 402)]) ∧
    (infer_features "chrT" 100 1000 .Forward [(100, 300), (400, 500), (700, 1000)]
        (some (200, 701))).map
        (fun out => (kindCoords .StopCodon out, kindCoords .UTR3 out)) =
      .ok ([(498, 500), (700, 701)], [(701, 1000)]) := by
  constructor <;> rfl

/-- C9: the stated failure cases — exon pair `(20,10)` fails with
`SubFeatureIntervalError`; an empty exon list together with a coding region
fails with `IncompleteTranscriptError`; interval construction from `(20,10)`
fails with `IntervalError`; strand `Reverse` together with character `+`
fails resolution with `ConflictingStrandError`. -/
theorem c9_failure_cases :
    infer_features "chrT" 10 30 .Forward [(20, 10)] none =
      .error .SubFeatureIntervalError ∧
    infer_features "chrT" 10 30 .Forward [] (some (15, 25)) =
      .error .IncompleteTranscriptError ∧
    coords_to_interval 20 10 = .error .IntervalError ∧
    resolve_strand_input (some .Reverse) (some '+') =
      .error .ConflictingStrandError := by
  refine ⟨rfl, rfl, rfl, ?_⟩
  simp [resolve_strand_input, Strand.from_char]

/-- C8: for every non-empty valid exon list, `infer_features` with no coding
region, or with a degenerate coding pair whose start equals its end, returns
exactly one `Exon`-kind sub-feature per input pair, in input order, with the
input coordinates and no other kinds. -/
theorem c8_exon_only (sn : String) (st : Strand) (tS tE : Nat)
    (xs : List (Nat × Nat)) (cds : Option (Nat × Nat))
    (hne : xs ≠ []) (hv : ∀ p ∈ xs, p.1 < p.2)
    (h0 : exonR0 xs = tS) (h1 : exonR1 xs = tE)
    (hc : cds = none ∨ ∃ c, cds = some (c, c)) :
    infer_features sn tS tE st xs cds =
      .ok (xs.map fun p => mkFeat sn st .Exon p.1 p.2) := by
  have hval := validateExonCoords_ok xs hv
  have hex := exonFeatures_ok sn st xs hv
  have hemp : xs.isEmpty = false := by
    cases xs with
    | nil => exact absurd rfl hne
    | cons a l => rfl
  rcases hc with hc | ⟨c, hc⟩ <;> subst hc <;>
    simp [infer_features, hemp, hval, h0, h1, hex]

/-- Witness for C8 at the source's own test input. -/
theorem c8_exon_only_witness :
    infer_features "chrT" 100 1000 .Forward [(100, 300), (400, 500), (700, 1000)]
        none =
      .ok [mkFeat "chrT" .Forward .Exon 100 300,
           mkFeat "chrT" .Forward .Exon 400 500,
           mkFeat "chrT" .Forward .Exon 700 1000] := by
  have h := c8_exon_only "chrT" .Forward 100 1000
    [(100, 300), (400, 500), (700, 1000)] none (by decide)
    (by decide) (by decide) (by decide) (Or.inl rfl)
  simpa using h

/-- C3 counterexample: the claim's union-span condition uses the minimum of
the starts and the maximum of the ends, but the code compares the FIRST
exon's start and the LAST exon's end.  For the unsorted list
`[(400,500),(100,300)]` the min/max span equals the declared interval
`[100,500)`, yet `infer_features` fails with `SubFeatureIntervalError`.
Moreover even with a matching span, a call with a malformed coding pair
still fails with the same `SubFeatureIntervalError` value, so the
"does not fail" direction only holds for calls without a coding region. -/
theorem c3_counterexample :
    infer_features "chrT" 100 500 .Forward [(400, 500), (100, 300)] none =
      .error .SubFeatureIntervalError ∧
    minStarts [(400, 500), (100, 300)] = 100 ∧
    maxEnds [(400, 500), (100, 300)] = 500 ∧
    ([(400, 500), (100, 300)].all fun p => decide (p.1 < p.2)) = true ∧
    infer_features "chrT" 100 500 .Forward [(100, 500)] (some (400, 200)) =
      .error .SubFeatureIntervalError := by
  refine ⟨rfl, by decide, by decide, by decide, rfl⟩

/-- C3 (amended): for every exon list accepted past the per-pair
`start < end` validation, `infer_features` fails with
`SubFeatureIntervalError` (for any coding argument) whenever the FIRST
exon's start or the LAST exon's end differs from the declared transcript
interval; when they match and no coding region is given, it succeeds (so in
particular it does not fail with the union-mismatch error). -/
theorem c3_union_span_check (sn : String) (st : Strand) (tS tE : Nat)
    (xs : List (Nat × Nat)) (hne : xs ≠ []) (hv : ∀ p ∈ xs, p.1 < p.2) :
    (∀ cds, (exonR0 xs ≠ tS ∨ exonR1 xs ≠ tE) →
        infer_features sn tS tE st xs cds = .error .SubFeatureIntervalError) ∧
    ((exonR0 xs = tS ∧ exonR1 xs = tE) →
        infer_features sn tS tE st xs none =
          .ok (xs.map fun p => mkFeat sn st .Exon p.1 p.2)) := by
  have hval := validateExonCoords_ok xs hv
  have hemp : xs.isEmpty = false := by
    cases xs with
    | nil => exact absurd rfl hne
    | cons a l => rfl
  constructor
  · intro cds hu
    simp [infer_features, hemp, hval, hu]
  · intro ⟨h0, h1⟩
    simp [infer_features, hemp, hval, h0, h1, exonFeatures_ok sn st xs hv]

/-- Witness for C3 at concrete inputs: a first/last mismatch fails, a
first/last match without coding succeeds. -/
theorem c3_union_span_check_witness :
    infer_features "chrT" 0 9 .Forward [(0, 5)] none =
      .error .SubFeatureIntervalError ∧
    infer_features "chrT" 0 5 .Forward [(0, 5)] none =
      .ok [mkFeat "chrT" .Forward .Exon 0 5] := by
  constructor
  · exact (c3_union_span_check "chrT" .Forward 0 9 [(0, 5)] (by decide)
      (by decide)).1 none (by decide)
  · have h := (c3_union_span_check "chrT" .Forward 0 5 [(0, 5)] (by decide)
      (by decide)).2 (by decide)
    simpa using h

/-- C10 counterexample: a builder given a valid interval and strand and an
explicitly supplied EMPTY exon coordinate list — with NO coding coordinate —
also fails with `IncompleteTranscriptError`, so the coding-with-no-exons
combination is not the only such failure. -/
theorem c10_counterexample :
    TranscriptBuilder.build emptyExonBuilder = .error .IncompleteTranscriptError ∧
    emptyExonBuilder.cds_coord = none := ⟨rfl, rfl⟩

/-- C10 (amended): a builder with a valid interval and a strand but no
sub-features, no exon coordinates and no coding coordinate builds a
transcript with an empty sub-feature sequence; a coding coordinate with no
exon coordinates fails with `IncompleteTranscriptError`; and, exactly, the
build fails with `IncompleteTranscriptError` iff no precomputed features are
given and either (a coding coordinate is present with no exon coordinates)
or (the exon coordinate list is supplied but empty). -/
theorem c10_builder_empty (sn : String) (s e : Nat) (st : Strand)
    (attrs : List (String × String)) (hse : s ≤ e) :
    (TranscriptBuilder.build
        ⟨sn, s, e, some st, none, none, none, none, attrs⟩ =
      .ok ⟨sn, s, e, st, attrs, []⟩) ∧
    (∀ c : Nat × Nat,
      TranscriptBuilder.build
          ⟨sn, s, e, some st, none, none, none, some c, attrs⟩ =
        .error .IncompleteTranscriptError) ∧
    (∀ (fo : Option (List TranscriptFeature)) (eo : Option (List (Nat × Nat)))
        (co : Option (Nat × Nat)),
      TranscriptBuilder.build ⟨sn, s, e, some st, none, fo, eo, co, attrs⟩ =
          .error .IncompleteTranscriptError ↔
        fo = none ∧ ((eo = none ∧ co ≠ none) ∨ eo = some [])) := by
  have hiv : coords_to_interval s e = .ok (s, e) := by
    simp [coords_to_interval, hse]
  refine ⟨?_, ?_, ?_⟩
  · simp [TranscriptBuilder.build, hiv, resolve_strand_input,
      resolve_transcript_features]
  · intro c
    simp [TranscriptBuilder.build, hiv, resolve_strand_input,
      resolve_transcript_features]
  · intro fo eo co
    match fo with
    | some fxs =>
        simp [TranscriptBuilder.build, hiv, resolve_strand_input,
          resolve_transcript_features]
    | none =>
        match eo with
        | none =>
            match co with
            | none =>
                simp [TranscriptBuilder.build, hiv, resolve_strand_input,
                  resolve_transcript_features]
            | some c =>
                simp [TranscriptBuilder.build, hiv, resolve_strand_input,
                  resolve_transcript_features]
        | some [] =>
            simp [TranscriptBuilder.build, hiv, resolve_strand_input,
              resolve_transcript_features, infer_features]
        | some (p :: l) =>
            have hni := infer_features_cons_ne_incomplete sn s e st p l co
            simp only [TranscriptBuilder.build, hiv, resolve_strand_input,
              resolve_transcript_features]
            constructor
            · intro hc
              exfalso
              apply hni
              match hinf : infer_features sn s e st (p :: l) co with
              | .error err => rw [hinf] at hc; cases hc; rfl
              | .ok v => rw [hinf] at hc; cases hc
            · intro ⟨_, hc⟩
              rcases hc with ⟨hc, _⟩ | hc <;> cases hc

/-- Witness for C10: the empty configuration builds with no sub-features, and
adding only a coding coordinate fails with `IncompleteTranscriptError`. -/
theorem c10_builder_empty_witness :
    (TranscriptBuilder.build
        ⟨"chrT", 100, 1000, some .Forward, none, none, none, none, []⟩ =
      .ok ⟨"chrT", 100, 1000, .Forward, [], []⟩) ∧
    TranscriptBuilder.build
        ⟨"chrT", 100, 1000, some .Forward, none, none, none, some (200, 300), []⟩ =
      .error .IncompleteTranscriptError := by
  have h := c10_builder_empty "chrT" 100 1000 .Forward [] (by omega)
  exact ⟨h.1, h.2.1 (200, 300)⟩

theorem tiled_of_cons (x : Nat × Nat) (l : List (Nat × Nat))
    (h : tiled (x :: l)) : tiled l := by
  cases l with
  | nil => trivial
  | cons y l' => exact h.2

theorem tiled_drop_left (P l : List (Nat × Nat)) (h : tiled (P ++ l)) :
    tiled l := by
  induction P with
  | nil => exact h
  | cons p P' ih => exact ih (tiled_of_cons p (P' ++ l) h)

theorem tiled_ends_le (P : List (Nat × Nat)) (x : Nat × Nat)
    (T : List (Nat × Nat)) (ht : tiled (P ++ x :: T))
    (hv : ∀ p ∈ P, p.1 < p.2) : ∀ p ∈ P, p.2 ≤ x.1 := by
  induction P with
  | nil => intro p hp; simp at hp
  | cons a P' ih =>
      intro p hp
      rcases List.mem_cons.mp hp with hpa | hp'
      · subst hpa
        cases P' with
        | nil => exact le_of_eq ht.1
        | cons b P'' =>
            have h1 : p.2 = b.1 := ht.1
            have hb : b.2 ≤ x.1 :=
              ih (tiled_of_cons p ((b :: P'') ++ x :: T) ht)
                (fun q hq => hv q (List.mem_cons_of_mem _ hq)) b (by simp)
            have hbv : b.1 < b.2 := hv b (by simp)
            omega
      · exact ih (tiled_of_cons a (P' ++ x :: T) ht)
          (fun q hq => hv q (List.mem_cons_of_mem _ hq)) p hp'

theorem tiled_starts_ge (x : Nat × Nat) (l T : List (Nat × Nat))
    (ht : tiled (x :: (l ++ T))) (hv : ∀ p ∈ l, p.1 < p.2) :
    ∀ q ∈ l, x.2 ≤ q.1 := by
  induction l generalizing x with
  | nil => intro q hq; simp at hq
  | cons b l' ih =>
      intro q hq
      have h1 : x.2 = b.1 := ht.1
      rcases List.mem_cons.mp hq with hqb | hq'
      · subst hqb; exact le_of_eq h1
      · have hbv : b.1 < b.2 := hv b (by simp)
        have hb := ih b (tiled_of_cons x (b :: (l' ++ T)) ht)
          (fun p hp => hv p (List.mem_cons_of_mem _ hp)) q hq'
        omega

theorem glues_append (l1 l2 : List (Nat × Nat)) (a b c : Nat)
    (h1 : glues l1 a b) (h2 : glues l2 b c) : glues (l1 ++ l2) a c := by
  induction l1 generalizing a with
  | nil => cases h1; exact h2
  | cons p l' ih =>
      obtain ⟨s, e⟩ := p
      exact ⟨h1.1, ih e h1.2⟩

theorem glues_mid (M : List (Nat × Nat)) (x y : Nat × Nat)
    (T : List (Nat × Nat)) (ht : tiled (x :: (M ++ y :: T))) :
    glues M x.2 y.1 := by
  induction M generalizing x with
  | nil => exact ht.1
  | cons q M' ih =>
      obtain ⟨s, e⟩ := q
      exact ⟨ht.1, ih (s, e) (tiled_of_cons x ((s, e) :: (M' ++ y :: T)) ht)⟩

theorem glues_head (P : List (Nat × Nat)) (x : Nat × Nat)
    (T : List (Nat × Nat)) (c : Nat) (ht : tiled (P ++ x :: T)) :
    glues (P ++ [(x.1, c)]) (exonR0 (P ++ x :: T)) c := by
  induction P with
  | nil => exact ⟨rfl, rfl⟩
  | cons p P' ih =>
      refine ⟨rfl, ?_⟩
      have hrec := ih (tiled_of_cons p (P' ++ x :: T) ht)
      have hp2 : p.2 = exonR0 (P' ++ x :: T) := by
        cases P' with
        | nil => exact ht.1
        | cons b P'' => exact ht.1
      rw [← hp2] at hrec
      exact hrec

theorem glues_tail (S : List (Nat × Nat)) (y : Nat × Nat)
    (ht : tiled (y :: S)) : glues S y.2 (exonR1 (y :: S)) := by
  induction S generalizing y with
  | nil => rfl
  | cons r S' ih =>
      obtain ⟨s, e⟩ := r
      have h2 := ih (s, e) (tiled_of_cons y ((s, e) :: S') ht)
      have hlast : exonR1 (y :: (s, e) :: S') = exonR1 ((s, e) :: S') := by
        simp [exonR1, List.getLast?_cons_cons]
      exact ⟨ht.1, by rw [hlast]; exact h2⟩

theorem exonR1_append (l1 l2 : List (Nat × Nat)) (h : l2 ≠ []) :
    exonR1 (l1 ++ l2) = exonR1 l2 := by
  simp [exonR1, List.getLast?_append_of_ne_nil _ h]

theorem inferStep_utr1 (sn : String) (st : Strand) (cs ce : Nat)
    (acc : InferState) (p : Nat × Nat) (h : p.2 ≤ cs) :
    inferStep sn st cs ce acc p =
      { acc with
          feats := acc.feats ++
            [mkFeat sn st .Exon p.1 p.2, mkFeat sn st (utr1Of st) p.1 p.2] } := by
  simp [inferStep, h]

theorem inferStep_utr1_cds (sn : String) (st : Strand) (cs ce : Nat)
    (acc : InferState) (p : Nat × Nat) (k1 : TxFeature)
    (hk : mcodon1Of st = some k1) (h1 : cs < p.2) (h2 : p.1 < cs)
    (h3 : cs + 3 ≤ p.2) :
    inferStep sn st cs ce acc p =
      { acc with
          feats := acc.feats ++
            [mkFeat sn st .Exon p.1 p.2, mkFeat sn st (utr1Of st) p.1 cs,
             mkFeat sn st k1 cs (cs + 3), mkFeat sn st .CDS cs p.2],
          c1 := acc.c1 - 3 } := by
  have hmin : min (cs + 3) p.2 = cs + 3 := Nat.min_eq_left h3
  have hspan : cs + 3 - cs = 3 := by omega
  simp [inferStep, Nat.not_le.mpr h1, h2, hk, hmin, fspan, mkFeat, hspan]

theorem inferStep_cds (sn : String) (st : Strand) (cs ce : Nat)
    (acc : InferState) (p : Nat × Nat)
    (h1 : cs < p.2) (h2 : ¬ p.1 < cs) (h3 : p.2 < ce) (hc1 : acc.c1 = 0) :
    inferStep sn st cs ce acc p =
      { acc with
          feats := acc.feats ++
            [mkFeat sn st .Exon p.1 p.2, mkFeat sn st .CDS p.1 p.2] } := by
  simp [inferStep, Nat.not_le.mpr h1, h2, h3, hc1]

theorem inferStep_cds_end (sn : String) (st : Strand) (cs ce : Nat)
    (acc : InferState) (s : Nat) (k2 : TxFeature)
    (hk : mcodon2Of st = some k2) (hcs : cs < ce) (h2 : ¬ s < cs)
    (h3 : s + 3 ≤ ce) (hc2 : acc.c2 = 3) :
    inferStep sn st cs ce acc (s, ce) =
      { acc with
          feats := acc.feats ++
            [mkFeat sn st .Exon s ce, mkFeat sn st .CDS s ce,
             mkFeat sn st k2 (ce - 3) ce],
          c2 := 0 } := by
  have hmax : max s (ce - 3) = ce - 3 := by omega
  have hspan : ce - (ce - 3) = 3 := by omega
  have hne : ¬ ce ≤ cs := Nat.not_le.mpr hcs
  have hge : 3 ≤ ce - s := by omega
  simp [inferStep, hne, h2, hk, hc2, hge, hmax, fspan, mkFeat, hspan]

theorem inferStep_cds_utr2 (sn : String) (st : Strand) (cs ce : Nat)
    (acc : InferState) (s e : Nat) (k2 : TxFeature)
    (hk : mcodon2Of st = some k2) (hcs : cs < ce) (h2 : ¬ s < cs)
    (h3 : s + 3 ≤ ce) (h4 : ce < e) (hc2 : acc.c2 = 3) :
    inferStep sn st cs ce acc (s, e) =
      { acc with
          feats := acc.feats ++
            [mkFeat sn st .Exon s e, mkFeat sn st .CDS s ce,
             mkFeat sn st k2 (ce - 3) ce, mkFeat sn st (utr2Of st) ce e],
          c2 := 0 } := by
  have hmax : max s (ce - 3) = ce - 3 := by omega
  have hspan : ce - (ce - 3) = 3 := by omega
  have hne : ¬ e ≤ cs := by omega
  have hlt : ¬ e < ce := by omega
  have heq : ¬ e = ce := by omega
  have hsce : s < ce := by omega
  have hfix : ¬ ce - s < 3 := by omega
  simp [inferStep, hne, h2, hlt, heq, hsce, hfix, hk, hc2, hmax, fspan,
    mkFeat, hspan]

theorem inferStep_utr2 (sn : String) (st : Strand) (cs ce : Nat)
    (acc : InferState) (s e : Nat)
    (hcs : cs < ce) (h : ce ≤ s) (hv : s < e) :
    inferStep sn st cs ce acc (s, e) =
      { acc with
          feats := acc.feats ++
            [mkFeat sn st .Exon s e, mkFeat sn st (utr2Of st) s e] } := by
  have h1 : ¬ e ≤ cs := by omega
  have h2 : ¬ s < cs := by omega
  have h3 : ¬ e < ce := by omega
  have h4 : ¬ e = ce := by omega
  have h5 : ¬ s < ce := by omega
  simp [inferStep, h1, h2, h3, h4, h5]

theorem foldl_utr1_blocks (sn : String) (st : Strand) (cs ce : Nat)
    (P : List (Nat × Nat)) :
    ∀ acc : InferState, (∀ p ∈ P, p.2 ≤ cs) →
    List.foldl (inferStep sn st cs ce) acc P =
      { acc with
          feats := acc.feats ++
            pairBlocks (fun p => mkFeat sn st .Exon p.1 p.2)
              (fun p => mkFeat sn st (utr1Of st) p.1 p.2) P } := by
  induction P with
  | nil => intro acc _; simp [pairBlocks]
  | cons p P' ih =>
      intro acc h
      rw [List.foldl_cons, inferStep_utr1 sn st cs ce acc p (h p (by simp)),
        ih _ (fun q hq => h q (by simp [hq]))]
      simp [pairBlocks]

theorem foldl_cds_blocks (sn : String) (st : Strand) (cs ce : Nat)
    (M : List (Nat × Nat)) :
    ∀ acc : InferState,
    (∀ q ∈ M, cs < q.2 ∧ ¬ q.1 < cs ∧ q.2 < ce) → acc.c1 = 0 →
    List.foldl (inferStep sn st cs ce) acc M =
      { acc with
          feats := acc.feats ++
            pairBlocks (fun p => mkFeat sn st .Exon p.1 p.2)
              (fun p => mkFeat sn st .CDS p.1 p.2) M } := by
  induction M with
  | nil => intro acc _ _; simp [pairBlocks]
  | cons q M' ih =>
      intro acc h hc1
      have hq := h q (by simp)
      rw [List.foldl_cons, inferStep_cds sn st cs ce acc q hq.1 hq.2.1 hq.2.2 hc1,
        ih { acc with
              feats := acc.feats ++
                [mkFeat sn st .Exon q.1 q.2, mkFeat sn st .CDS q.1 q.2] }
          (fun r hr => h r (by simp [hr])) hc1]
      simp [pairBlocks]

theorem foldl_utr2_blocks (sn : String) (st : Strand) (cs ce : Nat)
    (S : List (Nat × Nat)) :
    ∀ acc : InferState, cs < ce → (∀ r ∈ S, ce ≤ r.1 ∧ r.1 < r.2) →
    List.foldl (inferStep sn st cs ce) acc S =
      { acc with
          feats := acc.feats ++
            pairBlocks (fun p => mkFeat sn st .Exon p.1 p.2)
              (fun p => mkFeat sn st (utr2Of st) p.1 p.2) S } := by
  induction S with
  | nil => intro acc _ _; simp [pairBlocks]
  | cons r S' ih =>
      intro acc hcs h
      have hr := h r (by simp)
      have hstep := inferStep_utr2 sn st cs ce acc r.1 r.2 hcs hr.1 hr.2
      rw [List.foldl_cons]
      rw [show (r.1, r.2) = r from rfl] at hstep
      rw [hstep, ih _ hcs (fun q hq => h q (by simp [hq]))]
      simp [pairBlocks]

theorem kindCoords_append (k : TxFeature) (l1 l2 : List TranscriptFeature) :
    kindCoords k (l1 ++ l2) = kindCoords k l1 ++ kindCoords k l2 := by
  simp [kindCoords, List.filter_append]

theorem utrCoords_append (l1 l2 : List TranscriptFeature) :
    utrCoords (l1 ++ l2) = utrCoords l1 ++ utrCoords l2 := by
  simp [utrCoords, List.filter_append]

theorem kindCoords_pairBlocks_none (k kf kg : TxFeature) (sn : String)
    (st : Strand) (l : List (Nat × Nat)) (hf : kf ≠ k) (hg : kg ≠ k) :
    kindCoords k (pairBlocks (fun p => mkFeat sn st kf p.1 p.2)
      (fun p => mkFeat sn st kg p.1 p.2) l) = [] := by
  induction l with
  | nil => rfl
  | cons p l' ih => simp [pairBlocks, kindCoords, mkFeat, hf, hg] at ih ⊢; exact ih

theorem kindCoords_pairBlocks_snd (k kf : TxFeature) (sn : String)
    (st : Strand) (l : List (Nat × Nat)) (hf : kf ≠ k) :
    kindCoords k (pairBlocks (fun p => mkFeat sn st kf p.1 p.2)
      (fun p => mkFeat sn st k p.1 p.2) l) = l := by
  induction l with
  | nil => rfl
  | cons p l' ih => simp [pairBlocks, kindCoords, mkFeat, hf] at ih ⊢; exact ih

theorem utrCoords_pairBlocks_snd (kf kg : TxFeature) (sn : String)
    (st : Strand) (l : List (Nat × Nat))
    (hf : isUtrKind kf = false) (hg : isUtrKind kg = true) :
    utrCoords (pairBlocks (fun p => mkFeat sn st kf p.1 p.2)
      (fun p => mkFeat sn st kg p.1 p.2) l) = l := by
  induction l with
  | nil => rfl
  | cons p l' ih => simp [pairBlocks, utrCoords, mkFeat, hf, hg] at ih ⊢; exact ih

theorem utrCoords_pairBlocks_none (kf kg : TxFeature) (sn : String)
    (st : Strand) (l : List (Nat × Nat))
    (hf : isUtrKind kf = false) (hg : isUtrKind kg = false) :
    utrCoords (pairBlocks (fun p => mkFeat sn st kf p.1 p.2)
      (fun p => mkFeat sn st kg p.1 p.2) l) = [] := by
  induction l with
  | nil => rfl
  | cons p l' ih => simp [pairBlocks, utrCoords, mkFeat, hf, hg] at ih ⊢; exact ih

theorem ne_of_isUtrKind {a b : TxFeature} (ha : isUtrKind a = true)
    (hb : isUtrKind b = false) : a ≠ b := by
  intro h
  rw [h, hb] at ha
  cases ha

theorem glues_le (l : List (Nat × Nat)) (a b : Nat) (h : glues l a b)
    (hv : ∀ p ∈ l, p.1 ≤ p.2) : a ≤ b := by
  induction l generalizing a with
  | nil => exact le_of_eq h
  | cons p l' ih =>
      obtain ⟨s, e⟩ := p
      have h1 : a = s := h.1
      have h2 := ih e h.2 (fun q hq => hv q (by simp [hq]))
      have h3 : s ≤ e := hv (s, e) (by simp)
      omega

theorem c1_core (sn : String) (st : Strand) (tStart tEnd cs ce si ei sj ej : Nat)
    (P M S : List (Nat × Nat)) (u1k k1 u2k k2 : TxFeature)
    (hu1 : utr1Of st = u1k) (hm1 : mcodon1Of st = some k1)
    (hu2 : utr2Of st = u2k) (hm2 : mcodon2Of st = some k2)
    (hu1utr : isUtrKind u1k = true) (hu2utr : isUtrKind u2k = true)
    (hk1utr : isUtrKind k1 = false) (hk2utr : isUtrKind k2 = false)
    (hk1cds : k1 ≠ .CDS) (hk2cds : k2 ≠ .CDS)
    (hk1ex : k1 ≠ .Exon) (hk2ex : k2 ≠ .Exon) (hk12 : k1 ≠ k2)
    (xs : List (Nat × Nat))
    (hxs : xs = P ++ ((si, ei) :: (M ++ ((sj, ej) :: S))))
    (hv : ∀ p ∈ xs, p.1 < p.2) (ht : tiled xs)
    (h0 : exonR0 xs = tStart) (h1 : exonR1 xs = tEnd)
    (hsi : si < cs) (hei : cs + 3 ≤ ei)
    (hsj : sj + 3 ≤ ce) (hej : ce ≤ ej) :
    ∃ out, infer_features sn tStart tEnd st xs (some (cs, ce)) = .ok out ∧
      glues (kindCoords .CDS out) cs ce ∧
      (∃ u1 u2, utrCoords out = u1 ++ u2 ∧ glues u1 tStart cs ∧
        glues u2 ce tEnd) ∧
      sumSpans (kindCoords k1 out) = 3 ∧ sumSpans (kindCoords k2 out) = 3 := by
  subst hu1
  subst hu2
  subst hxs
  have hvP : ∀ p ∈ P, p.1 < p.2 := fun p hp => hv p (by simp [hp])
  have hvM : ∀ q ∈ M, q.1 < q.2 := fun q hq => hv q (by simp [hq])
  have hvS : ∀ r ∈ S, r.1 < r.2 := fun r hr => hv r (by simp [hr])
  have hvj : sj < ej := by omega
  have hP2 : ∀ p ∈ P, p.2 ≤ si :=
    tiled_ends_le P (si, ei) (M ++ (sj, ej) :: S) ht hvP
  have ht1 : tiled ((si, ei) :: (M ++ (sj, ej) :: S)) := tiled_drop_left P _ ht
  have hlist1 : (si, ei) :: ((M ++ [(sj, ej)]) ++ S) =
      (si, ei) :: (M ++ (sj, ej) :: S) := by simp
  have ht2 : tiled ((si, ei) :: ((M ++ [(sj, ej)]) ++ S)) := by
    rw [hlist1]; exact ht1
  have hMj : ∀ q ∈ M ++ [(sj, ej)], ei ≤ q.1 := by
    refine tiled_starts_ge (si, ei) (M ++ [(sj, ej)]) S ht2 ?_
    intro p hp
    rcases List.mem_append.mp hp with h | h
    · exact hvM p h
    · simp at h; subst h; exact hvj
  have hMstart : ∀ q ∈ M, ei ≤ q.1 := fun q hq => hMj q (List.mem_append_left _ hq)
  have hsjge : ei ≤ sj := hMj (sj, ej) (by simp)
  have hlist2 : P ++ ((si, ei) :: (M ++ ((sj, ej) :: S))) =
      (P ++ [(si, ei)]) ++ (M ++ (sj, ej) :: S) := by simp
  have ht3 : tiled (M ++ (sj, ej) :: S) := by
    refine tiled_drop_left (P ++ [(si, ei)]) _ ?_
    rw [← hlist2]; exact ht
  have hM2 : ∀ q ∈ M, q.2 ≤ sj := tiled_ends_le M (sj, ej) S ht3 hvM
  have ht4 : tiled ((sj, ej) :: S) := tiled_drop_left M _ ht3
  have hS1 : ∀ r ∈ S, ej ≤ r.1 := by
    have ht5 : tiled ((sj, ej) :: (S ++ [])) := by rw [List.append_nil]; exact ht4
    exact tiled_starts_ge (sj, ej) S [] ht5 hvS
  have hcs_ce : cs < ce := by omega
  have hu1cds : utr1Of st ≠ TxFeature.CDS := ne_of_isUtrKind hu1utr rfl
  have hu2cds : utr2Of st ≠ TxFeature.CDS := ne_of_isUtrKind hu2utr rfl
  have hexf : isUtrKind TxFeature.Exon = false := rfl
  have hcdf : isUtrKind TxFeature.CDS = false := rfl
  have henv0 : exonR0 (P ++ ((si, ei) :: (M ++ ((sj, ej) :: S)))) ≤ cs := by
    cases P with
    | nil => exact Nat.le_of_lt hsi
    | cons p P' =>
        have hp1 : p.1 < p.2 := hvP p (by simp)
        have hp2 : p.2 ≤ si := hP2 p (by simp)
        show p.1 ≤ cs
        omega
  have hr1eq : exonR1 (P ++ ((si, ei) :: (M ++ ((sj, ej) :: S)))) =
      exonR1 ((sj, ej) :: S) := by
    have hsh : P ++ ((si, ei) :: (M ++ ((sj, ej) :: S))) =
        (P ++ (si, ei) :: M) ++ ((sj, ej) :: S) := by simp
    rw [hsh, exonR1_append _ _ (by simp)]
  have hgluesS : glues S ej (exonR1 ((sj, ej) :: S)) := glues_tail S (sj, ej) ht4
  have henv1 : ce ≤ exonR1 (P ++ ((si, ei) :: (M ++ ((sj, ej) :: S)))) := by
    rw [hr1eq]
    have := glues_le S ej _ hgluesS (fun p hp => Nat.le_of_lt (hvS p hp))
    omega
  have hval := validateExonCoords_ok _ hv
  have hempty : (P ++ ((si, ei) :: (M ++ ((sj, ej) :: S)))).isEmpty = false := by
    cases P <;> rfl
  have hA : List.foldl (inferStep sn st cs ce) ⟨[], 3, 3⟩ P =
      ⟨pairBlocks (fun p => mkFeat sn st .Exon p.1 p.2)
        (fun p => mkFeat sn st (utr1Of st) p.1 p.2) P, 3, 3⟩ := by
    rw [foldl_utr1_blocks sn st cs ce P ⟨[], 3, 3⟩
      (fun p hp => by have := hP2 p hp; omega)]
    simp
  have hB : inferStep sn st cs ce
      ⟨pairBlocks (fun p => mkFeat sn st .Exon p.1 p.2)
        (fun p => mkFeat sn st (utr1Of st) p.1 p.2) P, 3, 3⟩ (si, ei) =
      ⟨pairBlocks (fun p => mkFeat sn st .Exon p.1 p.2)
        (fun p => mkFeat sn st (utr1Of st) p.1 p.2) P ++
        [mkFeat sn st .Exon si ei, mkFeat sn st (utr1Of st) si cs,
         mkFeat sn st k1 cs (cs + 3), mkFeat sn st .CDS cs ei], 0, 3⟩ := by
    rw [inferStep_utr1_cds sn st cs ce _ (si, ei) k1 hm1 (by omega) hsi hei]
    simp
  have hC : List.foldl (inferStep sn st cs ce)
      ⟨pairBlocks (fun p => mkFeat sn st .Exon p.1 p.2)
        (fun p => mkFeat sn st (utr1Of st) p.1 p.2) P ++
        [mkFeat sn st .Exon si ei, mkFeat sn st (utr1Of st) si cs,
         mkFeat sn st k1 cs (cs + 3), mkFeat sn st .CDS cs ei], 0, 3⟩ M =
      ⟨(pairBlocks (fun p => mkFeat sn st .Exon p.1 p.2)
        (fun p => mkFeat sn st (utr1Of st) p.1 p.2) P ++
        [mkFeat sn st .Exon si ei, mkFeat sn st (utr1Of st) si cs,
         mkFeat sn st k1 cs (cs + 3), mkFeat sn st .CDS cs ei]) ++
        pairBlocks (fun p => mkFeat sn st .Exon p.1 p.2)
          (fun p => mkFeat sn st .CDS p.1 p.2) M, 0, 3⟩ := by
    rw [foldl_cds_blocks sn st cs ce M _
      (fun q hq => ⟨by have h1 := hMstart q hq; have h2 := hvM q hq; omega,
                    by have := hMstart q hq; omega,
                    by have := hM2 q hq; omega⟩) rfl]
  rcases eq_or_lt_of_le hej with heq | hlt
  · -- coding region ends exactly at exon j's end
    subst heq
    refine ⟨(pairBlocks (fun p => mkFeat sn st .Exon p.1 p.2)
        (fun p => mkFeat sn st (utr1Of st) p.1 p.2) P ++
        [mkFeat sn st .Exon si ei, mkFeat sn st (utr1Of st) si cs,
         mkFeat sn st k1 cs (cs + 3), mkFeat sn st .CDS cs ei] ++
        pairBlocks (fun p => mkFeat sn st .Exon p.1 p.2)
          (fun p => mkFeat sn st .CDS p.1 p.2) M ++
        [mkFeat sn st .Exon sj ce, mkFeat sn st .CDS sj ce,
         mkFeat sn st k2 (ce - 3) ce] ++
        pairBlocks (fun p => mkFeat sn st .Exon p.1 p.2)
          (fun p => mkFeat sn st (utr2Of st) p.1 p.2) S), ?_, ?_, ?_, ?_, ?_⟩
    · have hD : inferStep sn st cs ce
          ⟨(pairBlocks (fun p => mkFeat sn st .Exon p.1 p.2)
            (fun p => mkFeat sn st (utr1Of st) p.1 p.2) P ++
            [mkFeat sn st .Exon si ei, mkFeat sn st (utr1Of st) si cs,
             mkFeat sn st k1 cs (cs + 3), mkFeat sn st .CDS cs ei]) ++
            pairBlocks (fun p => mkFeat sn st .Exon p.1 p.2)
              (fun p => mkFeat sn st .CDS p.1 p.2) M, 0, 3⟩ (sj, ce) =
          ⟨((pairBlocks (fun p => mkFeat sn st .Exon p.1 p.2)
            (fun p => mkFeat sn st (utr1Of st) p.1 p.2) P ++
            [mkFeat sn st .Exon si ei, mkFeat sn st (utr1Of st) si cs,
             mkFeat sn st k1 cs (cs + 3), mkFeat sn st .CDS cs ei]) ++
            pairBlocks (fun p => mkFeat sn st .Exon p.1 p.2)
              (fun p => mkFeat sn st .CDS p.1 p.2) M) ++
            [mkFeat sn st .Exon sj ce, mkFeat sn st .CDS sj ce,
             mkFeat sn st k2 (ce - 3) ce], 0, 0⟩ := by
        rw [inferStep_cds_end sn st cs ce _ sj k2 hm2 hcs_ce (by omega) hsj rfl]
      have hE := foldl_utr2_blocks sn st cs ce S
        ⟨((pairBlocks (fun p => mkFeat sn st .Exon p.1 p.2)
          (fun p => mkFeat sn st (utr1Of st) p.1 p.2) P ++
          [mkFeat sn st .Exon si ei, mkFeat sn st (utr1Of st) si cs,
           mkFeat sn st k1 cs (cs + 3), mkFeat sn st .CDS cs ei]) ++
          pairBlocks (fun p => mkFeat sn st .Exon p.1 p.2)
            (fun p => mkFeat sn st .CDS p.1 p.2) M) ++
          [mkFeat sn st .Exon sj ce, mkFeat sn st .CDS sj ce,
           mkFeat sn st k2 (ce - 3) ce], 0, 0⟩ hcs_ce
        (fun r hr => ⟨by have := hS1 r hr; omega, hvS r hr⟩)
      rw [show infer_features sn tStart tEnd st
          (P ++ ((si, ei) :: (M ++ ((sj, ce) :: S)))) (some (cs, ce)) =
          .ok (List.foldl (inferStep sn st cs ce) ⟨[], 3, 3⟩
            (P ++ ((si, ei) :: (M ++ ((sj, ce) :: S))))).feats from ?_]
      · rw [List.foldl_append, List.foldl_cons, List.foldl_append,
          List.foldl_cons, hA, hB, hC, hD, hE]
      · simp only [infer_features, hempty, Bool.false_eq_true, if_false, hval]
        rw [if_neg (by simp [h0, h1]), if_neg (by omega), if_pos hcs_ce,
          if_neg (by push_neg; omega)]
    · simp only [kindCoords_append,
        kindCoords_pairBlocks_none .CDS .Exon (utr1Of st) sn st P (by decide)
          (hu1cds),
        kindCoords_pairBlocks_snd .CDS .Exon sn st M (by decide),
        kindCoords_pairBlocks_none .CDS .Exon (utr2Of st) sn st S (by decide)
          (hu2cds)]
      have hbi : kindCoords .CDS
          [mkFeat sn st .Exon si ei, mkFeat sn st (utr1Of st) si cs,
           mkFeat sn st k1 cs (cs + 3), mkFeat sn st .CDS cs ei] = [(cs, ei)] := by
        simp [kindCoords, mkFeat, hk1cds, hu1cds]
      have hbj : kindCoords .CDS
          [mkFeat sn st .Exon sj ce, mkFeat sn st .CDS sj ce,
           mkFeat sn st k2 (ce - 3) ce] = [(sj, ce)] := by
        simp [kindCoords, mkFeat, hk2cds]
      rw [hbi, hbj]
      simp only [List.nil_append, List.append_nil, List.singleton_append]
      exact ⟨rfl, glues_append M [(sj, ce)] ei sj ce
        (glues_mid M (si, ei) (sj, ce) S ht1) ⟨rfl, rfl⟩⟩
    · refine ⟨P ++ [(si, cs)], S, ?_, ?_, ?_⟩
      · simp only [utrCoords_append,
          utrCoords_pairBlocks_snd .Exon (utr1Of st) sn st P rfl hu1utr,
          utrCoords_pairBlocks_none .Exon .CDS sn st M rfl rfl,
          utrCoords_pairBlocks_snd .Exon (utr2Of st) sn st S rfl hu2utr]
        have hbi : utrCoords
            [mkFeat sn st .Exon si ei, mkFeat sn st (utr1Of st) si cs,
             mkFeat sn st k1 cs (cs + 3), mkFeat sn st .CDS cs ei] = [(si, cs)] := by
          simp [utrCoords, mkFeat, hu1utr, hk1utr, hexf, hcdf]
        have hbj : utrCoords
            [mkFeat sn st .Exon sj ce, mkFeat sn st .CDS sj ce,
             mkFeat sn st k2 (ce - 3) ce] = [] := by
          simp [utrCoords, mkFeat, hk2utr, hexf, hcdf]
        rw [hbi, hbj]
        simp
      · have h := glues_head P (si, ei) (M ++ (sj, ce) :: S) cs ht
        rw [h0] at h
        exact h
      · have h := hgluesS
        rw [← hr1eq, h1] at h
        exact h
    · simp only [kindCoords_append,
        kindCoords_pairBlocks_none k1 .Exon (utr1Of st) sn st P
          (Ne.symm hk1ex) (ne_of_isUtrKind hu1utr hk1utr),
        kindCoords_pairBlocks_none k1 .Exon .CDS sn st M
          (Ne.symm hk1ex) (Ne.symm hk1cds),
        kindCoords_pairBlocks_none k1 .Exon (utr2Of st) sn st S
          (Ne.symm hk1ex) (ne_of_isUtrKind hu2utr hk1utr)]
      have hbi : kindCoords k1
          [mkFeat sn st .Exon si ei, mkFeat sn st (utr1Of st) si cs,
           mkFeat sn st k1 cs (cs + 3), mkFeat sn st .CDS cs ei] =
          [(cs, cs + 3)] := by
        simp [kindCoords, mkFeat, Ne.symm hk1ex, Ne.symm hk1cds,
          ne_of_isUtrKind hu1utr hk1utr]
      have hbj : kindCoords k1
          [mkFeat sn st .Exon sj ce, mkFeat sn st .CDS sj ce,
           mkFeat sn st k2 (ce - 3) ce] = [] := by
        simp [kindCoords, mkFeat, Ne.symm hk1ex, Ne.symm hk1cds, Ne.symm hk12]
      rw [hbi, hbj]
      simp [sumSpans]
    · simp only [kindCoords_append,
        kindCoords_pairBlocks_none k2 .Exon (utr1Of st) sn st P
          (Ne.symm hk2ex) (ne_of_isUtrKind hu1utr hk2utr),
        kindCoords_pairBlocks_none k2 .Exon .CDS sn st M
          (Ne.symm hk2ex) (Ne.symm hk2cds),
        kindCoords_pairBlocks_none k2 .Exon (utr2Of st) sn st S
          (Ne.symm hk2ex) (ne_of_isUtrKind hu2utr hk2utr)]
      have hbi : kindCoords k2
          [mkFeat sn st .Exon si ei, mkFeat sn st (utr1Of st) si cs,
           mkFeat sn st k1 cs (cs + 3), mkFeat sn st .CDS cs ei] = [] := by
        simp [kindCoords, mkFeat, Ne.symm hk2ex, Ne.symm hk2cds,
          ne_of_isUtrKind hu1utr hk2utr, hk12]
      have hbj : kindCoords k2
          [mkFeat sn st .Exon sj ce, mkFeat sn st .CDS sj ce,
           mkFeat sn st k2 (ce - 3) ce] = [(ce - 3, ce)] := by
        simp [kindCoords, mkFeat, Ne.symm hk2ex, Ne.symm hk2cds]
      rw [hbi, hbj]
      have : ce - (ce - 3) = 3 := by omega
      simp [sumSpans, this]
  · -- coding region ends strictly inside exon j
    refine ⟨(pairBlocks (fun p => mkFeat sn st .Exon p.1 p.2)
        (fun p => mkFeat sn st (utr1Of st) p.1 p.2) P ++
        [mkFeat sn st .Exon si ei, mkFeat sn st (utr1Of st) si cs,
         mkFeat sn st k1 cs (cs + 3), mkFeat sn st .CDS cs ei] ++
        pairBlocks (fun p => mkFeat sn st .Exon p.1 p.2)
          (fun p => mkFeat sn st .CDS p.1 p.2) M ++
        [mkFeat sn st .Exon sj ej, mkFeat sn st .CDS sj ce,
         mkFeat sn st k2 (ce - 3) ce, mkFeat sn st (utr2Of st) ce ej] ++
        pairBlocks (fun p => mkFeat sn st .Exon p.1 p.2)
          (fun p => mkFeat sn st (utr2Of st) p.1 p.2) S), ?_, ?_, ?_, ?_, ?_⟩
    · have hD : inferStep sn st cs ce
          ⟨(pairBlocks (fun p => mkFeat sn st .Exon p.1 p.2)
            (fun p => mkFeat sn st (utr1Of st) p.1 p.2) P ++
            [mkFeat sn st .Exon si ei, mkFeat sn st (utr1Of st) si cs,
             mkFeat sn st k1 cs (cs + 3), mkFeat sn st .CDS cs ei]) ++
            pairBlocks (fun p => mkFeat sn st .Exon p.1 p.2)
              (fun p => mkFeat sn st .CDS p.1 p.2) M, 0, 3⟩ (sj, ej) =
          ⟨((pairBlocks (fun p => mkFeat sn st .Exon p.1 p.2)
            (fun p => mkFeat sn st (utr1Of st) p.1 p.2) P ++
            [mkFeat sn st .Exon si ei, mkFeat sn st (utr1Of st) si cs,
             mkFeat sn st k1 cs (cs + 3), mkFeat sn st .CDS cs ei]) ++
            pairBlocks (fun p => mkFeat sn st .Exon p.1 p.2)
              (fun p => mkFeat sn st .CDS p.1 p.2) M) ++
            [mkFeat sn st .Exon sj ej, mkFeat sn st .CDS sj ce,
             mkFeat sn st k2 (ce - 3) ce, mkFeat sn st (utr2Of st) ce ej],
            0, 0⟩ := by
        rw [inferStep_cds_utr2 sn st cs ce _ sj ej k2 hm2 hcs_ce (by omega)
          hsj hlt rfl]
      have hE := foldl_utr2_blocks sn st cs ce S
        ⟨((pairBlocks (fun p => mkFeat sn st .Exon p.1 p.2)
          (fun p => mkFeat sn st (utr1Of st) p.1 p.2) P ++
          [mkFeat sn st .Exon si ei, mkFeat sn st (utr1Of st) si cs,
           mkFeat sn st k1 cs (cs + 3), mkFeat sn st .CDS cs ei]) ++
          pairBlocks (fun p => mkFeat sn st .Exon p.1 p.2)
            (fun p => mkFeat sn st .CDS p.1 p.2) M) ++
          [mkFeat sn st .Exon sj ej, mkFeat sn st .CDS sj ce,
           mkFeat sn st k2 (ce - 3) ce, mkFeat sn st (utr2Of st) ce ej],
          0, 0⟩ hcs_ce
        (fun r hr => ⟨by have := hS1 r hr; omega, hvS r hr⟩)
      rw [show infer_features sn tStart tEnd st
          (P ++ ((si, ei) :: (M ++ ((sj, ej) :: S)))) (some (cs, ce)) =
          .ok (List.foldl (inferStep sn st cs ce) ⟨[], 3, 3⟩
            (P ++ ((si, ei) :: (M ++ ((sj, ej) :: S))))).feats from ?_]
      · rw [List.foldl_append, List.foldl_cons, List.foldl_append,
          List.foldl_cons, hA, hB, hC, hD, hE]
      · simp only [infer_features, hempty, Bool.false_eq_true, if_false, hval]
        rw [if_neg (by simp [h0, h1]), if_neg (by omega), if_pos hcs_ce,
          if_neg (by push_neg; omega)]
    · simp only [kindCoords_append,
        kindCoords_pairBlocks_none .CDS .Exon (utr1Of st) sn st P (by decide)
          (hu1cds),
        kindCoords_pairBlocks_snd .CDS .Exon sn st M (by decide),
        kindCoords_pairBlocks_none .CDS .Exon (utr2Of st) sn st S (by decide)
          (hu2cds)]
      have hbi : kindCoords .CDS
          [mkFeat sn st .Exon si ei, mkFeat sn st (utr1Of st) si cs,
           mkFeat sn st k1 cs (cs + 3), mkFeat sn st .CDS cs ei] = [(cs, ei)] := by
        simp [kindCoords, mkFeat, hk1cds, hu1cds]
      have hbj : kindCoords .CDS
          [mkFeat sn st .Exon sj ej, mkFeat sn st .CDS sj ce,
           mkFeat sn st k2 (ce - 3) ce, mkFeat sn st (utr2Of st) ce ej] =
          [(sj, ce)] := by
        simp [kindCoords, mkFeat, hk2cds, hu2cds]
      rw [hbi, hbj]
      simp only [List.nil_append, List.append_nil, List.singleton_append]
      exact ⟨rfl, glues_append M [(sj, ce)] ei sj ce
        (glues_mid M (si, ei) (sj, ej) S ht1) ⟨rfl, rfl⟩⟩
    · refine ⟨P ++ [(si, cs)], (ce, ej) :: S, ?_, ?_, ?_⟩
      · simp only [utrCoords_append,
          utrCoords_pairBlocks_snd .Exon (utr1Of st) sn st P rfl hu1utr,
          utrCoords_pairBlocks_none .Exon .CDS sn st M rfl rfl,
          utrCoords_pairBlocks_snd .Exon (utr2Of st) sn st S rfl hu2utr]
        have hbi : utrCoords
            [mkFeat sn st .Exon si ei, mkFeat sn st (utr1Of st) si cs,
             mkFeat sn st k1 cs (cs + 3), mkFeat sn st .CDS cs ei] = [(si, cs)] := by
          simp [utrCoords, mkFeat, hu1utr, hk1utr, hexf, hcdf]
        have hbj : utrCoords
            [mkFeat sn st .Exon sj ej, mkFeat sn st .CDS sj ce,
             mkFeat sn st k2 (ce - 3) ce, mkFeat sn st (utr2Of st) ce ej] =
            [(ce, ej)] := by
          simp [utrCoords, mkFeat, hk2utr, hu2utr, hexf, hcdf]
        rw [hbi, hbj]
        simp
      · have h := glues_head P (si, ei) (M ++ (sj, ej) :: S) cs ht
        rw [h0] at h
        exact h
      · refine ⟨rfl, ?_⟩
        have h := hgluesS
        rw [← hr1eq, h1] at h
        exact h
    · simp only [kindCoords_append,
        kindCoords_pairBlocks_none k1 .Exon (utr1Of st) sn st P
          (Ne.symm hk1ex) (ne_of_isUtrKind hu1utr hk1utr),
        kindCoords_pairBlocks_none k1 .Exon .CDS sn st M
          (Ne.symm hk1ex) (Ne.symm hk1cds),
        kindCoords_pairBlocks_none k1 .Exon (utr2Of st) sn st S
          (Ne.symm hk1ex) (ne_of_isUtrKind hu2utr hk1utr)]
      have hbi : kindCoords k1
          [mkFeat sn st .Exon si ei, mkFeat sn st (utr1Of st) si cs,
           mkFeat sn st k1 cs (cs + 3), mkFeat sn st .CDS cs ei] =
          [(cs, cs + 3)] := by
        simp [kindCoords, mkFeat, Ne.symm hk1ex, Ne.symm hk1cds,
          ne_of_isUtrKind hu1utr hk1utr]
      have hbj : kindCoords k1
          [mkFeat sn st .Exon sj ej, mkFeat sn st .CDS sj ce,
           mkFeat sn st k2 (ce - 3) ce, mkFeat sn st (utr2Of st) ce ej] = [] := by
        simp [kindCoords, mkFeat, Ne.symm hk1ex, Ne.symm hk1cds, Ne.symm hk12,
          ne_of_isUtrKind hu2utr hk1utr]
      rw [hbi, hbj]
      simp [sumSpans]
    · simp only [kindCoords_append,
        kindCoords_pairBlocks_none k2 .Exon (utr1Of st) sn st P
          (Ne.symm hk2ex) (ne_of_isUtrKind hu1utr hk2utr),
        kindCoords_pairBlocks_none k2 .Exon .CDS sn st M
          (Ne.symm hk2ex) (Ne.symm hk2cds),
        kindCoords_pairBlocks_none k2 .Exon (utr2Of st) sn st S
          (Ne.symm hk2ex) (ne_of_isUtrKind hu2utr hk2utr)]
      have hbi : kindCoords k2
          [mkFeat sn st .Exon si ei, mkFeat sn st (utr1Of st) si cs,
           mkFeat sn st k1 cs (cs + 3), mkFeat sn st .CDS cs ei] = [] := by
        simp [kindCoords, mkFeat, Ne.symm hk2ex, Ne.symm hk2cds,
          ne_of_isUtrKind hu1utr hk2utr, hk12]
      have hbj : kindCoords k2
          [mkFeat sn st .Exon sj ej, mkFeat sn st .CDS sj ce,
           mkFeat sn st k2 (ce - 3) ce, mkFeat sn st (utr2Of st) ce ej] =
          [(ce - 3, ce)] := by
        simp [kindCoords, mkFeat, Ne.symm hk2ex, Ne.symm hk2cds,
          ne_of_isUtrKind hu2utr hk2utr]
      rw [hbi, hbj]
      have : ce - (ce - 3) = 3 := by omega
      simp [sumSpans, this]

/-- C1 counterexample: the claim as stated fails on inputs satisfying its own
hypotheses (non-empty ascending exon list whose union equals the transcript
interval, coding pair `cs < ce` enveloped by the union).  (a) With both
coding boundaries strictly inside a single exon, the `CDS` piece overshoots
to the exon end — it is `(200,1000)`, which does not concatenate to
`[200,900)` — and no `StopCodon` is emitted; (b) a start codon split into an
exon that ends exactly at the coding end is truncated to 1 base; (c) a stop
codon whose exon is shorter than 3 bases is dropped entirely; (d) on the
`Unknown` strand no codons are emitted at all. -/
theorem c1_counterexample :
    (infer_features "chrT" 100 1000 .Forward [(100, 1000)] (some (200, 900))).map
        (fun out => kindCoords .CDS out) = .ok [(200, 1000)] ∧
    ¬ glues [(200, 1000)] 200 900 ∧
    (infer_features "chrT" 100 1000 .Forward [(100, 1000)] (some (200, 900))).map
        (fun out => sumSpans (kindCoords .StopCodon out)) = .ok 0 ∧
    (infer_features "chrT" 100 300 .Forward [(100, 200), (200, 300)]
        (some (199, 300))).map
      (fun out => sumSpans (kindCoords .StartCodon out)) = .ok 1 ∧
    (infer_features "chrT" 100 300 .Forward [(100, 298), (298, 300)]
        (some (150, 300))).map
      (fun out => sumSpans (kindCoords .StopCodon out)) = .ok 0 ∧
    (infer_features "chrT" 100 1000 .Unknown [(100, 300), (300, 1000)]
        (some (200, 900))).map
      (fun out => sumSpans (kindCoords .StartCodon out)) = .ok 0 := by
  decide

/-- C1 (amended): for every exon coordinate list that tiles the transcript
interval `[tStart, tEnd)` (per-pair `start < end`, consecutive exons
adjacent, first start and last end matching the interval), every known
strand, and every coding region `(cs, ce)` whose start lies strictly inside
an exon `(si, ei)` with at least 3 coding bases before that exon's end
(`si < cs`, `cs + 3 ≤ ei`) and whose end lies in a LATER exon `(sj, ej)`
with at least 3 coding bases inside it (`sj + 3 ≤ ce ≤ ej`): the `CDS`
sub-feature intervals concatenate to exactly `[cs, ce)`; the UTR-kind
intervals concatenate to exactly the exon union minus `[cs, ce)` (a prefix
gluing to `[tStart, cs)` and a suffix gluing to `[ce, tEnd)`); and the
`StartCodon` and `StopCodon` intervals each sum to exactly 3 bases. -/
theorem c1_cds_utr_codon_coverage (sn : String) (st : Strand)
    (tStart tEnd cs ce si ei sj ej : Nat) (P M S xs : List (Nat × Nat))
    (hst : st ≠ Strand.Unknown)
    (hxs : xs = P ++ ((si, ei) :: (M ++ ((sj, ej) :: S))))
    (hv : ∀ p ∈ xs, p.1 < p.2) (ht : tiled xs)
    (h0 : exonR0 xs = tStart) (h1 : exonR1 xs = tEnd)
    (hsi : si < cs) (hei : cs + 3 ≤ ei)
    (hsj : sj + 3 ≤ ce) (hej : ce ≤ ej) :
    ∃ out, infer_features sn tStart tEnd st xs (some (cs, ce)) = .ok out ∧
      glues (kindCoords .CDS out) cs ce ∧
      (∃ u1 u2, utrCoords out = u1 ++ u2 ∧ glues u1 tStart cs ∧
        glues u2 ce tEnd) ∧
      sumSpans (kindCoords .StartCodon out) = 3 ∧
      sumSpans (kindCoords .StopCodon out) = 3 := by
  cases st with
  | Unknown => exact absurd rfl hst
  | Forward =>
      exact c1_core sn .Forward tStart tEnd cs ce si ei sj ej P M S
        .UTR5 .StartCodon .UTR3 .StopCodon rfl rfl rfl rfl rfl rfl rfl rfl
        (by decide) (by decide) (by decide) (by decide) (by decide)
        xs hxs hv ht h0 h1 hsi hei hsj hej
  | Reverse =>
      obtain ⟨out, ha, hb, hc, hd, he⟩ :=
        c1_core sn .Reverse tStart tEnd cs ce si ei sj ej P M S
          .UTR3 .StopCodon .UTR5 .StartCodon rfl rfl rfl rfl rfl rfl rfl rfl
          (by decide) (by decide) (by decide) (by decide) (by decide)
          xs hxs hv ht h0 h1 hsi hei hsj hej
      exact ⟨out, ha, hb, hc, he, hd⟩

/-- Witness for C1 at a concrete tiling input. -/
theorem c1_cds_utr_codon_coverage_witness :
    ∃ out, infer_features "chrT" 100 1000 .Forward
        [(100, 300), (300, 500), (500, 1000)] (some (200, 900)) = .ok out ∧
      glues (kindCoords .CDS out) 200 900 ∧
      (∃ u1 u2, utrCoords out = u1 ++ u2 ∧ glues u1 100 200 ∧
        glues u2 900 1000) ∧
      sumSpans (kindCoords .StartCodon out) = 3 ∧
      sumSpans (kindCoords .StopCodon out) = 3 :=
  c1_cds_utr_codon_coverage "chrT" .Forward 100 1000 200 900 100 300 500 1000
    [] [(300, 500)] [] [(100, 300), (300, 500), (500, 1000)]
    (by decide) (by decide) (by decide) (by decide) (by decide) (by decide)
    (by decide) (by decide) (by decide) (by decide)

theorem natDigitsRev_eval (f : Nat) : ∀ n, n ≤ f →
    evalDigitsLE (natDigitsRev f n) = n := by
  induction f with
  | zero => intro n hn; interval_cases n; rfl
  | succ f ih =>
      intro n hn
      by_cases h0 : n = 0
      · subst h0; rfl
      · have hdiv : n / 10 ≤ f := by omega
        simp only [natDigitsRev, h0, if_false, evalDigitsLE, ih (n / 10) hdiv]
        omega

theorem natDigitsRev_lt (f : Nat) : ∀ n d, d ∈ natDigitsRev f n → d < 10 := by
  induction f with
  | zero => intro n d hd; simp [natDigitsRev] at hd
  | succ f ih =>
      intro n d hd
      by_cases h0 : n = 0
      · subst h0; simp [natDigitsRev] at hd
      · simp only [natDigitsRev, h0, if_false, List.mem_cons] at hd
        rcases hd with hd | hd
        · subst hd; omega
        · exact ih (n / 10) d hd

theorem natDigitsRev_ne_nil (f n : Nat) (h0 : 0 < n) (hf : 0 < f) :
    natDigitsRev f n ≠ [] := by
  cases f with
  | zero => omega
  | succ f => simp [natDigitsRev, Nat.pos_iff_ne_zero.mp h0]

theorem digitChar_isDigit (d : Nat) : (digitChar d).isDigit = true := by
  unfold digitChar
  split <;> rfl

theorem digitChar_toNat (d : Nat) (h : d < 10) : (digitChar d).toNat - 48 = d := by
  interval_cases d <;> rfl

theorem foldl_digits (ds : List Nat) (hd : ∀ d ∈ ds, d < 10) : ∀ acc : Nat,
    List.foldl (fun a c => a * 10 + (c.toNat - 48)) acc
      ((ds.reverse).map digitChar) = acc * 10 ^ ds.length + evalDigitsLE ds := by
  induction ds with
  | nil => intro acc; simp [evalDigitsLE]
  | cons d rest ih =>
      intro acc
      have hdl : d < 10 := hd d (by simp)
      have hrest : ∀ x ∈ rest, x < 10 := fun x hx => hd x (by simp [hx])
      simp only [List.reverse_cons, List.map_append, List.map_cons,
        List.map_nil, List.foldl_append, List.foldl_cons, List.foldl_nil,
        ih hrest acc, digitChar_toNat d hdl, evalDigitsLE, List.length_cons]
      ring

theorem parse_natStr (n : Nat) : parseNat (natStr n) = some n := by
  by_cases h0 : n = 0
  · subst h0; rfl
  · have hne : natDigitsRev n n ≠ [] :=
      natDigitsRev_ne_nil n n (by omega) (by omega)
    have hlt : ∀ d ∈ natDigitsRev n n, d < 10 := natDigitsRev_lt n n
    have hdata : (natStr n).data = ((natDigitsRev n n).reverse).map digitChar := by
      simp [natStr, h0]
    have hnonempty : ((natDigitsRev n n).reverse).map digitChar ≠ [] := by
      simp [hne]
    have hall : (((natDigitsRev n n).reverse).map digitChar).all
        (fun c => c.isDigit) = true := by
      simp only [List.all_eq_true]
      intro c hc
      simp only [List.mem_map, List.mem_reverse] at hc
      obtain ⟨d, _, hdc⟩ := hc
      rw [← hdc]
      exact digitChar_isDigit d
    rw [parseNat, hdata]
    rw [if_neg hnonempty, if_pos hall]
    rw [foldl_digits (natDigitsRev n n) hlt 0]
    rw [natDigitsRev_eval n n (le_refl n)]
    simp

theorem zip_raw_natStr (coords : List (Nat × Nat)) :
    zip_raw_exon_coords (coords.map fun p => natStr p.1)
      (coords.map fun p => natStr p.2) = .ok coords := by
  induction coords with
  | nil => rfl
  | cons p rest ih =>
      simp [zip_raw_exon_coords, parseU64, parse_natStr, ih]

theorem foldl_min_le_self (l : List (Nat × Nat)) : ∀ a : Nat,
    List.foldl (fun m q => min m q.1) a l ≤ a := by
  induction l with
  | nil => intro a; exact le_refl a
  | cons p rest ih =>
      intro a
      have := ih (min a p.1)
      have h2 : min a p.1 ≤ a := Nat.min_le_left _ _
      calc List.foldl (fun m q => min m q.1) (min a p.1) rest ≤ min a p.1 := this
        _ ≤ a := h2

theorem minStarts_le (l : List (Nat × Nat)) : ∀ (a : Nat), ∀ p ∈ l,
    List.foldl (fun m q => min m q.1) a l ≤ p.1 := by
  induction l with
  | nil => intro a p hp; simp at hp
  | cons q rest ih =>
      intro a p hp
      rcases List.mem_cons.mp hp with h | h
      · subst h
        calc List.foldl (fun m q => min m q.1) (min a p.1) rest
            ≤ min a p.1 := foldl_min_le_self rest _
          _ ≤ p.1 := Nat.min_le_right _ _
      · exact ih (min a q.1) p h

theorem le_foldl_max_self (l : List (Nat × Nat)) : ∀ a : Nat,
    a ≤ List.foldl (fun m q => max m q.2) a l := by
  induction l with
  | nil => intro a; exact le_refl a
  | cons p rest ih =>
      intro a
      rw [List.foldl_cons]
      have := ih (max a p.2)
      have h2 : a ≤ max a p.2 := Nat.le_max_left _ _
      omega

theorem le_maxEnds (l : List (Nat × Nat)) : ∀ (a : Nat), ∀ p ∈ l,
    p.2 ≤ List.foldl (fun m q => max m q.2) a l := by
  induction l with
  | nil => intro a p hp; simp at hp
  | cons q rest ih =>
      intro a p hp
      rcases List.mem_cons.mp hp with h | h
      · subst h
        rw [List.foldl_cons]
        have h1 : p.2 ≤ max a p.2 := Nat.le_max_right _ _
        have h2 := le_foldl_max_self rest (max a p.2)
        omega
      · exact ih (max a q.2) p h

theorem minStarts_le_maxEnds (l : List (Nat × Nat)) (hne : l ≠ [])
    (hv : ∀ p ∈ l, p.1 < p.2) : minStarts l ≤ maxEnds l := by
  cases l with
  | nil => exact absurd rfl hne
  | cons p rest =>
      have h1 : minStarts (p :: rest) ≤ p.1 :=
        minStarts_le (p :: rest) U64MAX p (by simp)
      have h2 : p.2 ≤ maxEnds (p :: rest) :=
        le_maxEnds (p :: rest) 0 p (by simp)
      have h3 : p.1 < p.2 := hv p (by simp)
      omega

/-- C6: converting a well-formed raw refFlat row to a transcript with
`into_transcript` and serializing it back with the writer reproduces the
original row byte for byte, including the trailing-comma exon lists and,
for rows with no coding region, the coding start and end both written as
the transcript's end coordinate. -/
theorem c6_round_trip (r : RefFlatRecord) (h : wellFormedRow r) :
    ∃ t, into_transcript r = .ok t ∧
      write_transcript_gid t none = encodeRecord r := by
  obtain ⟨coords, hne, hes, hee, hn, hv, hmin, hmax, hstrand, hcoding⟩ := h
  have hzip : zip_raw_exon_coords r.exon_starts r.exon_ends = .ok coords := by
    rw [hes, hee]; exact zip_raw_natStr coords
  have hlenne : ¬ coords.length ≠ r.num_exons := by omega
  have hie : coords.isEmpty = false := by
    cases coords with
    | nil => exact absurd rfl hne
    | cons a l => rfl
  have hany : coords.any (fun p => p.1 ≥ p.2) = false := by
    simp only [List.any_eq_false, decide_eq_true_eq]
    intro p hp
    have := hv p hp
    omega
  have hmm : minStarts coords ≤ maxEnds coords := minStarts_le_maxEnds coords hne hv
  have hnotgt : ¬ r.trx_start > r.trx_end := by rw [← hmin, ← hmax]; omega
  have hunion : ¬ (minStarts coords ≠ r.trx_start ∨ maxEnds coords ≠ r.trx_end) := by
    simp [hmin, hmax]
  obtain ⟨st, hst1, hst2⟩ : ∃ st, Strand.from_char r.strand = some st ∧
      strandToChar st = r.strand := by
    rcases hstrand with h | h | h <;> rw [h] <;> exact ⟨_, rfl, rfl⟩
  rcases hcoding with ⟨hcs, hce⟩ | ⟨hlt2, hcl, hcu⟩
  · -- no coding region: sentinel written back as the transcript end
    refine ⟨⟨r.seq_name, r.trx_start, r.trx_end, st, some r.transcript_name,
      [("gene_id", r.gene_id)], coords, none⟩, ?_, ?_⟩
    · simp only [into_transcript, hzip, hst1]
      rw [if_neg hlenne]
      rw [if_neg (show ¬ r.coding_start ≠ r.coding_end by rw [hcs, hce]; simp)]
      simp only [tbuild, hie, hany]
      rw [if_neg hnotgt]
      simp only [Bool.false_eq_true, if_false]
      rw [if_neg hunion]
    · simp [write_transcript_gid, encodeRecord, coding_coord, coords_field,
        hst2, hn, hes, hee, hcs, hce]
  · -- proper coding region
    refine ⟨⟨r.seq_name, r.trx_start, r.trx_end, st, some r.transcript_name,
      [("gene_id", r.gene_id)], coords, some (r.coding_start, r.coding_end)⟩,
      ?_, ?_⟩
    · simp only [into_transcript, hzip, hst1]
      rw [if_neg hlenne]
      rw [if_pos (show r.coding_start ≠ r.coding_end by omega)]
      simp only [tbuild, hie, hany]
      rw [if_neg hnotgt]
      simp only [Bool.false_eq_true, if_false]
      rw [if_neg hunion]
      rw [if_neg (show ¬ r.coding_start > r.coding_end by omega)]
      rw [if_neg (show ¬ r.coding_start = r.coding_end by omega)]
      rw [if_neg (show ¬ (r.coding_start < minStarts coords ∨
        r.coding_end > maxEnds coords) by rw [hmin, hmax]; push_neg; omega)]
    · simp [write_transcript_gid, encodeRecord, coding_coord, coords_field,
        hst2, hn, hes, hee]

/-- Witness for C6 at the spec's own example row (`DDX11L1`). -/
theorem c6_round_trip_witness :
    ∃ t, into_transcript ddxRow = .ok t ∧
      write_transcript_gid t none = encodeRecord ddxRow := by
  apply c6_round_trip
  exact ⟨[(11873, 12227), (12612, 12721), (13220, 14409)], by decide, by decide,
    by decide, by decide, by decide, by decide, by decide, by decide, by decide⟩

theorem zip_raw_ok_of_parse (ss : List String) : ∀ es : List String,
    (∀ s ∈ ss, (parseNat s).isSome = true) →
    (∀ e ∈ es, (parseNat e).isSome = true) →
    ∃ coords, zip_raw_exon_coords ss es = .ok coords ∧
      coords.length = min ss.length es.length := by
  induction ss with
  | nil => intro es _ _; exact ⟨[], rfl, by simp⟩
  | cons s ss' ih =>
      intro es hs he
      cases es with
      | nil => exact ⟨[], rfl, by simp⟩
      | cons e es' =>
          have hs1 : (parseNat s).isSome = true := hs s (by simp)
          have he1 : (parseNat e).isSome = true := he e (by simp)
          obtain ⟨a, ha⟩ := Option.isSome_iff_exists.mp hs1
          obtain ⟨b, hb⟩ := Option.isSome_iff_exists.mp he1
          obtain ⟨rest, hrest, hlen⟩ := ih es'
            (fun q hq => hs q (by simp [hq])) (fun q hq => he q (by simp [hq]))
          refine ⟨(a, b) :: rest, ?_, ?_⟩
          · simp [zip_raw_exon_coords, parseU64, ha, hb, hrest]
          · simp [hlen]
            omega

theorem zip_raw_length (ss es : List String) (coords : List (Nat × Nat))
    (h : zip_raw_exon_coords ss es = .ok coords) :
    coords.length = min ss.length es.length := by
  induction ss generalizing es coords with
  | nil => cases h; simp
  | cons s ss' ih =>
      cases es with
      | nil => cases h; simp
      | cons e es' =>
          simp only [zip_raw_exon_coords] at h
          match ha : parseU64 s with
          | .error err => rw [ha] at h; cases h
          | .ok a =>
              rw [ha] at h
              match hb : parseU64 e with
              | .error err => rw [hb] at h; cases h
              | .ok b =>
                  rw [hb] at h
                  match hr : zip_raw_exon_coords ss' es' with
                  | .error err => rw [hr] at h; cases h
                  | .ok rest =>
                      rw [hr] at h
                      cases h
                      have := ih es' rest hr
                      simp [this]
                      omega

/-- C7 counterexample: decoding does NOT fail whenever `num_exons` differs
from the token count of one exon column — Rust's `zip` silently truncates to
the shorter column, so a row with 3 start values, 2 end values and
`num_exons = 2` decodes successfully.  And with matching, all-numeric
columns, decoding does not always succeed: an inverted exon pair fails the
builder validation. -/
theorem c7_counterexample :
    (into_transcript truncRow).isOk = true ∧
    truncRow.exon_starts.length ≠ truncRow.num_exons ∧
    into_transcript invertedExonRow = .error (.feature .SubFeatureIntervalError) ∧
    invertedExonRow.exon_starts.length = invertedExonRow.num_exons ∧
    invertedExonRow.exon_ends.length = invertedExonRow.num_exons ∧
    ((invertedExonRow.exon_starts ++ invertedExonRow.exon_ends).all
      (fun tok => (parseNat tok).isSome)) = true := by
  decide

/-- C7 (amended): decoding fails with the count-mismatch decode error
whenever the number of zipped exon coordinate pairs — the minimum of the two
token counts — differs from `num_exons` (all zipped values numeric); when
`num_exons` equals both counts, all values are numeric, and the coordinate,
strand and coding validations of the builder pass, `into_transcript`
succeeds. -/
theorem c7_count_mismatch (r : RefFlatRecord) :
    ((∀ tok ∈ r.exon_starts, (parseNat tok).isSome = true) →
     (∀ tok ∈ r.exon_ends, (parseNat tok).isSome = true) →
     min r.exon_starts.length r.exon_ends.length ≠ r.num_exons →
     into_transcript r =
       .error (.refFlat "number of exon and exon coordinates mismatch")) ∧
    (∀ coords : List (Nat × Nat),
      zip_raw_exon_coords r.exon_starts r.exon_ends = .ok coords →
      r.exon_starts.length = r.num_exons → r.exon_ends.length = r.num_exons →
      coords ≠ [] → (∀ p ∈ coords, p.1 < p.2) →
      minStarts coords = r.trx_start → maxEnds coords = r.trx_end →
      (r.strand = '+' ∨ r.strand = '-' ∨ r.strand = '.') →
      (r.coding_start = r.coding_end ∨ (r.coding_start < r.coding_end ∧
        r.trx_start ≤ r.coding_start ∧ r.coding_end ≤ r.trx_end)) →
      ∃ t, into_transcript r = .ok t) := by
  constructor
  · intro hs he hmin
    obtain ⟨coords, hzip, hlen⟩ := zip_raw_ok_of_parse r.exon_starts r.exon_ends hs he
    simp only [into_transcript, hzip]
    rw [if_pos (by omega)]
  · intro coords hzip hs he hne hv hmin hmax hstrand hcoding
    have hlen : coords.length = min r.exon_starts.length r.exon_ends.length :=
      zip_raw_length _ _ _ hzip
    have hlenne : ¬ coords.length ≠ r.num_exons := by omega
    have hie : coords.isEmpty = false := by
      cases coords with
      | nil => exact absurd rfl hne
      | cons a l => rfl
    have hany : coords.any (fun p => p.1 ≥ p.2) = false := by
      simp only [List.any_eq_false, decide_eq_true_eq]
      intro p hp
      have := hv p hp
      omega
    have hmm : minStarts coords ≤ maxEnds coords := minStarts_le_maxEnds coords hne hv
    have hnotgt : ¬ r.trx_start > r.trx_end := by rw [← hmin, ← hmax]; omega
    have hunion : ¬ (minStarts coords ≠ r.trx_start ∨ maxEnds coords ≠ r.trx_end) := by
      simp [hmin, hmax]
    obtain ⟨st, hst1, hst2⟩ : ∃ st, Strand.from_char r.strand = some st ∧
        strandToChar st = r.strand := by
      rcases hstrand with h | h | h <;> rw [h] <;> exact ⟨_, rfl, rfl⟩
    rcases hcoding with hsent | ⟨hlt2, hcl, hcu⟩
    · refine ⟨⟨r.seq_name, r.trx_start, r.trx_end, st, some r.transcript_name,
        [("gene_id", r.gene_id)], coords, none⟩, ?_⟩
      simp only [into_transcript, hzip, hst1]
      rw [if_neg hlenne]
      rw [if_neg (show ¬ r.coding_start ≠ r.coding_end by omega)]
      simp only [tbuild, hie, hany]
      rw [if_neg hnotgt]
      simp only [Bool.false_eq_true, if_false]
      rw [if_neg hunion]
    · refine ⟨⟨r.seq_name, r.trx_start, r.trx_end, st, some r.transcript_name,
        [("gene_id", r.gene_id)], coords, some (r.coding_start, r.coding_end)⟩, ?_⟩
      simp only [into_transcript, hzip, hst1]
      rw [if_neg hlenne]
      rw [if_pos (show r.coding_start ≠ r.coding_end by omega)]
      simp only [tbuild, hie, hany]
      rw [if_neg hnotgt]
      simp only [Bool.false_eq_true, if_false]
      rw [if_neg hunion]
      rw [if_neg (show ¬ r.coding_start > r.coding_end by omega)]
      rw [if_neg (show ¬ r.coding_start = r.coding_end by omega)]
      rw [if_neg (show ¬ (r.coding_start < minStarts coords ∨
        r.coding_end > maxEnds coords) by rw [hmin, hmax]; push_neg; omega)]

/-- Witness for C7: a zipped-count mismatch fails with the decode error, and
a fully valid row decodes to a transcript. -/
theorem c7_count_mismatch_witness :
    into_transcript mismatchRow =
      .error (.refFlat "number of exon and exon coordinates mismatch") ∧
    ∃ t, into_transcript ddxRow = .ok t := by
  constructor
  · exact (c7_count_mismatch mismatchRow).1 (by decide) (by decide) (by decide)
  · exact (c7_count_mismatch ddxRow).2
      [(11873, 12227), (12612, 12721), (13220, 14409)] (by decide)
      (by decide) (by decide) (by decide) (by decide) (by decide) (by decide)
      (by decide) (by decide)

theorem consecRuns_cons {α κ : Type} (key : α → κ) [DecidableEq κ] (a : α)
    (l : List α) :
    consecRuns key (a :: l) =
      match consecRuns key l with
      | (y :: ys) :: rest =>
          if key a = key y then (a :: y :: ys) :: rest
          else [a] :: (y :: ys) :: rest
      | _ => [[a]] := rfl

theorem consecRuns_ne_nil {α κ : Type} (key : α → κ) [DecidableEq κ]
    (l : List α) : ∀ run ∈ consecRuns key l, run ≠ [] := by
  induction l with
  | nil => intro run h; simp [consecRuns] at h
  | cons a l ih =>
      intro run hrun
      rw [consecRuns_cons] at hrun
      match hcr : consecRuns key l with
      | [] =>
          rw [hcr] at hrun
          simp at hrun
          subst hrun
          simp
      | [] :: rest =>
          rw [hcr] at hrun
          simp at hrun
          subst hrun
          simp
      | (y :: ys) :: rest =>
          rw [hcr] at hrun
          by_cases hk : key a = key y
          · simp only [hk, if_true] at hrun
            rcases List.mem_cons.mp hrun with h | h
            · subst h; simp
            · exact ih run (by rw [hcr]; exact List.mem_cons_of_mem _ h)
          · simp only [hk, if_false] at hrun
            rcases List.mem_cons.mp hrun with h | h
            · subst h; simp
            · exact ih run (by rw [hcr]; exact h)

theorem consecRuns_const {α κ : Type} (key : α → κ) [DecidableEq κ]
    (l : List α) :
    ∀ run ∈ consecRuns key l, ∀ x ∈ run, ∀ y ∈ run, key x = key y := by
  induction l with
  | nil => intro run h; simp [consecRuns] at h
  | cons a l ih =>
      intro run hrun
      rw [consecRuns_cons] at hrun
      match hcr : consecRuns key l with
      | [] =>
          rw [hcr] at hrun
          simp at hrun
          subst hrun
          intro x hx y hy
          simp at hx hy
          rw [hx, hy]
      | [] :: rest =>
          rw [hcr] at hrun
          simp at hrun
          subst hrun
          intro x hx y hy
          simp at hx hy
          rw [hx, hy]
      | (y0 :: ys) :: rest =>
          rw [hcr] at hrun
          by_cases hk : key a = key y0
          · simp only [hk, if_true] at hrun
            rcases List.mem_cons.mp hrun with h | h
            · subst h
              have hold := ih (y0 :: ys) (by rw [hcr]; simp)
              intro x hx z hz
              rcases List.mem_cons.mp hx with hx1 | hx2 <;>
                rcases List.mem_cons.mp hz with hz1 | hz2
              · rw [hx1, hz1]
              · rw [hx1, hk]; exact hold y0 (by simp) z hz2
              · rw [hz1, hk]; exact (hold y0 (by simp) x hx2).symm
              · exact hold x hx2 z hz2
            · exact ih run (by rw [hcr]; exact List.mem_cons_of_mem _ h)
          · simp only [hk, if_false] at hrun
            rcases List.mem_cons.mp hrun with h | h
            · subst h
              intro x hx z hz
              simp at hx hz
              rw [hx, hz]
            · exact ih run (by rw [hcr]; exact h)

/-- C5: a grouped run containing a failed record consists entirely of failed
records (decode failures have a `None` grouping key, so they form their own
runs), and such a run yields its FIRST decode error instead of a gene;
subsequent runs of other gene keys are still processed into genes, as the
concrete stream `[SMIM12 row, malformed row, OTHER1 row]` shows. -/
theorem c5_run_error_propagation :
    (∀ (input run : List (Except Error RefFlatRecord)),
      run ∈ consecRuns groupf input →
      (∃ x ∈ run, ∃ e, x = .error e) →
      (∀ x ∈ run, ∃ e2, x = .error e2) ∧
      processRun run = .error (firstErrD run)) ∧
    (genesStream [.ok smim1, .error (.csv "malformed row"), .ok otherRow]).map
        (Except.map (fun g => g.id)) =
      [.ok (some "SMIM12"), .error (.csv "malformed row"),
       .ok (some "OTHER1")] := by
  constructor
  · intro input run hrun hex
    obtain ⟨x, hx, e, hxe⟩ := hex
    have hconst := consecRuns_const groupf input run hrun
    have hne := consecRuns_ne_nil groupf input run hrun
    have hkey : groupf x = none := by subst hxe; rfl
    have hall : ∀ y ∈ run, ∃ e2, y = .error e2 := by
      intro y hy
      have hk := hconst y hy x hx
      rw [hkey] at hk
      match y, hk with
      | .error e2, _ => exact ⟨e2, rfl⟩
      | .ok rec, hk => simp [groupf] at hk
    refine ⟨hall, ?_⟩
    cases run with
    | nil => exact absurd rfl hne
    | cons z rest =>
        obtain ⟨ez, hez⟩ := hall z (by simp)
        subst hez
        simp [processRun, groupf]
  · rfl

/-- Witness for C5 at the malformed-row run of the concrete stream. -/
theorem c5_run_error_propagation_witness :
    (∀ x ∈ [(.error (.csv "malformed row") : Except Error RefFlatRecord)],
      ∃ e2, x = .error e2) ∧
    processRun [.error (.csv "malformed row")] =
      .error (firstErrD [.error (.csv "malformed row")]) :=
  c5_run_error_propagation.1
    [.ok smim1, .error (.csv "malformed row"), .ok otherRow]
    [.error (.csv "malformed row")] (by decide)
    ⟨.error (.csv "malformed row"), by decide, ⟨.csv "malformed row", rfl⟩⟩

/-- C4: three consecutive rows sharing the `(SMIM12, chr1, '-')` key yield
exactly one gene holding the three transcripts in input order; a further
`SMIM12` row after an intervening row with a different gene id yields a
second, separate `SMIM12` gene. -/
theorem c4_gene_grouping :
    (genesStream [.ok smim1, .ok smim2, .ok smim3]).map
        (Except.map (fun g => (g.id, g.transcripts.map Prod.fst))) =
      [.ok (some "SMIM12", ["NM_001164824", "NM_001164825", "NM_138428"])] ∧
    (genesStream [.ok smim1, .ok otherRow, .ok smim2]).map
        (Except.map (fun g => (g.id, g.transcripts.map Prod.fst))) =
      [.ok (some "SMIM12", ["NM_001164824"]),
       .ok (some "OTHER1", ["NM_000001"]),
       .ok (some "SMIM12", ["NM_001164825"])] := by
  constructor <;> rfl
